import Mathlib

/-!
Verification of the FinQuest portfolio valuation and snapshot reconciliation
core (`services/portfolio.py`, `jobs/snapshots.py`, `services/fx.py`).

Modelling conventions:
* Python `Decimal` arithmetic is modelled as exact rational arithmetic (`ℚ`).
* Timestamps are absolute instants modelled as seconds since the Unix epoch
  (`Int`); all stored timestamps are UTC, so an instant is just a number.
  Python's `%` and `//` on nonnegative divisors correspond to `Int.emod` /
  `Int.ediv` (both yield nonnegative remainders for positive moduli).
* Database queries are modelled at their boundary: a `Db` value carries the
  portfolio's transaction table (ordered by `executed_at`, as the queries
  return it), the instrument table, and the price/FX oracle responses
  (`get_latest_prices`, `get_prev_close`, `get_historical_prices_batch`, and
  the FX-rate store/provider behind `fx_now`/`fx_at`), which are external
  collaborators (network/yfinance/wall-clock) specified only at their
  interface.
* Python truthiness on optional numbers (`if x:` for `Optional[Decimal]`)
  is `none`/zero ↦ false, modelled by `qtruthy`.
-/

namespace FinQuest

/-- Python truthiness of an `Optional[Decimal]`: `None` and `0` are falsy. -/
def qtruthy : Option ℚ → Bool
  | none => false
  | some x => x != 0

/-- Python truthiness of an `Optional[str]`: `None` and `""` are falsy. -/
def struthy : Option String → Bool
  | none => false
  | some s => s != ""

/-- A row of the `transactions` table (the ledger).  `executed_at` is seconds
since epoch; `deleted` models `deleted_at IS NOT NULL`. -/
structure Tx where
  instrument_id : Nat
  side : String
  quantity : ℚ
  price : ℚ
  trade_currency : String
  executed_at : Int
  fx_rate_to_user_base : Option ℚ
  deleted : Bool
  deriving Repr, DecidableEq

/-- The derived `Position` dataclass of `services/portfolio.py`. -/
structure Position where
  instrument_id : Nat
  quantity : ℚ
  avg_cost_trade_ccy : ℚ
  cost_basis_base : ℚ
  deriving Repr, DecidableEq

/-- Lookup of `positions[instrument_id]` in the insertion-ordered dict,
modelled as an association list. -/
def posLookup (m : List Position) (iid : Nat) : Option Position :=
  m.find? (fun p => p.instrument_id = iid)

/-- The per-transaction update of one instrument's position inside the loop of
`_compute_positions` (`services/portfolio.py` lines 124-161): buys blend the
average cost, sells reduce quantity floored at zero, any other side is a
no-op.  `if tx.fx_rate_to_user_base:` and `if cost_in_base:` are Python
truthiness tests. -/
def applyTxPos (p : Position) (tx : Tx) : Position :=
  if tx.side = "buy" then
    let old_qty := p.quantity
    let old_avg_cost := if old_qty > 0 then p.avg_cost_trade_ccy else 0
    let buy_qty := tx.quantity
    let buy_price := tx.price
    let new_qty := old_qty + buy_qty
    let new_avg_cost :=
      if new_qty > 0 then (old_qty * old_avg_cost + buy_qty * buy_price) / new_qty else 0
    let cost_in_base : Option ℚ :=
      if qtruthy tx.fx_rate_to_user_base then
        some (buy_qty * buy_price * tx.fx_rate_to_user_base.getD 0)
      else none
    let new_cost_basis :=
      if qtruthy cost_in_base then p.cost_basis_base + cost_in_base.getD 0
      else p.cost_basis_base
    { p with quantity := new_qty, avg_cost_trade_ccy := new_avg_cost,
             cost_basis_base := new_cost_basis }
  else if tx.side = "sell" then
    let q := p.quantity - tx.quantity
    { p with quantity := if q < 0 then 0 else q }
  else p

/-- One iteration of the transaction loop of `_compute_positions`: a default
zero position is inserted for an unseen instrument (regardless of side, as in
the source), then the matching entry is updated. -/
def applyTx (m : List Position) (tx : Tx) : List Position :=
  let m :=
    if (posLookup m tx.instrument_id).isSome then m
    else m ++ [⟨tx.instrument_id, 0, 0, 0⟩]
  m.map (fun p => if p.instrument_id = tx.instrument_id then applyTxPos p tx else p)

/-- `_compute_positions` (`services/portfolio.py` lines 107-164): fold the
non-deleted transactions (the query orders them by `executed_at`; the input
list is the table in that order) and drop zero-quantity positions. -/
def compute_positions (transactions : List Tx) : List Position :=
  let transactions := transactions.filter (fun t => !t.deleted)
  (transactions.foldl applyTx []).filter (fun p => 0 < p.quantity)

/-- State of the re-implemented average-cost fold inside
`calculate_portfolio_value_at_time` (`jobs/snapshots.py` lines 425-457): two
insertion-ordered dicts, `positions` (quantities) and `avg_costs`. -/
structure CalcState where
  positions : List (Nat × ℚ)
  avg_costs : List (Nat × ℚ)
  deriving Repr, DecidableEq

/-- Dict lookup for the `Nat → ℚ` dicts of `calculate_portfolio_value_at_time`. -/
def dlookup (m : List (Nat × ℚ)) (k : Nat) : Option ℚ :=
  (m.find? (fun e => e.1 = k)).map (·.2)

/-- Dict assignment `m[k] = v` for a key already present. -/
def dset (m : List (Nat × ℚ)) (k : Nat) (v : ℚ) : List (Nat × ℚ) :=
  m.map (fun e => if e.1 = k then (e.1, v) else e)

/-- `if instrument_id not in positions: positions[instrument_id] = 0`. -/
def dinit (m : List (Nat × ℚ)) (k : Nat) : List (Nat × ℚ) :=
  if (dlookup m k).isSome then m else m ++ [(k, 0)]

/-- One iteration of the transaction loop of
`calculate_portfolio_value_at_time` (`jobs/snapshots.py` lines 431-457). -/
def calcApplyTx (st : CalcState) (tx : Tx) : CalcState :=
  let ps := dinit st.positions tx.instrument_id
  let acs := dinit st.avg_costs tx.instrument_id
  if tx.side = "buy" then
    let old_qty := (dlookup ps tx.instrument_id).getD 0
    let old_avg_cost := if old_qty > 0 then (dlookup acs tx.instrument_id).getD 0 else 0
    let buy_qty := tx.quantity
    let buy_price := tx.price
    let new_qty := old_qty + buy_qty
    let new_avg_cost :=
      if new_qty > 0 then (old_qty * old_avg_cost + buy_qty * buy_price) / new_qty else 0
    { positions := dset ps tx.instrument_id new_qty,
      avg_costs := dset acs tx.instrument_id new_avg_cost }
  else if tx.side = "sell" then
    let q := (dlookup ps tx.instrument_id).getD 0 - tx.quantity
    { positions := dset ps tx.instrument_id (if q < 0 then 0 else q),
      avg_costs := acs }
  else { positions := ps, avg_costs := acs }

/-- The `PriceRecord` dataclass of `services/pricing.py`. -/
structure PriceRecord where
  price : ℚ
  ts : Int
  day_change_abs : Option ℚ
  day_change_pct : Option ℚ
  deriving Repr, DecidableEq

/-- A row of the `instruments` table (the fields read by the valuation code). -/
structure InstrumentData where
  id : Nat
  symbol : String
  name : String
  type : String
  sector : Option String
  currency : String
  deriving Repr, DecidableEq

/-- The database and oracle context for one portfolio and its owner.
`transactions` is the portfolio's transaction table in `executed_at` order
(the order every query returns it in).  The four function fields are the
external price/FX collaborators at their interface boundary:
`latestPrice`/`prevClose` stand for `get_latest_prices`/`get_prev_close`,
`histPrice` for `get_historical_prices_batch` (fallback chain included), and
`fxOracleAt`/`fxOracleNow` for the FX-store/provider lookups performed by
`fx_at`/`fx_now` after their same-currency shortcut. -/
structure Db where
  transactions : List Tx
  instruments : List InstrumentData
  latestPrice : Nat → Option PriceRecord
  prevClose : Nat → Option PriceRecord
  histPrice : Nat → Int → Option PriceRecord
  fxOracleAt : String → String → Int → Option ℚ
  fxOracleNow : String → String → Option ℚ
  base_currency : String

/-- `fx_now` (`services/fx.py`): same currency returns `1.0` without
consulting the store/provider. -/
def fx_now (db : Db) (quote base : String) : Option ℚ :=
  if quote = base then some 1 else db.fxOracleNow quote base

/-- `fx_at` (`services/fx.py`): same currency returns `1.0` without
consulting the store/provider. -/
def fx_at (db : Db) (quote base : String) (whn : Int) : Option ℚ :=
  if quote = base then some 1 else db.fxOracleAt quote base whn

/-- Instrument lookup `instruments.get(instrument_id)`. -/
def instLookup (db : Db) (iid : Nat) : Option InstrumentData :=
  db.instruments.find? (fun i => i.id = iid)

/-- `calculate_portfolio_value_at_time` (`jobs/snapshots.py` lines 404-505):
positions as of `as_of` via the average-cost fold, then
`Σ quantity * historicalPrice * fxRate` over positions with an available
price, with `fx_at` falling back to `fx_now` (`if not fx_rate:` is Python
truthiness, so a zero rate also falls through) and instruments lacking a
price or any FX rate skipped. -/
def calculate_portfolio_value_at_time (db : Db) (as_of : Int) : ℚ :=
  let transactions :=
    db.transactions.filter (fun t => !t.deleted && t.executed_at ≤ as_of)
  if transactions.isEmpty then 0
  else
    let st := transactions.foldl calcApplyTx ⟨[], []⟩
    let positions := st.positions.filter (fun e => 0 < e.2)
    if positions.isEmpty then 0
    else
      positions.foldl (fun total e =>
        match instLookup db e.1 with
        | none => total
        | some instrument =>
          match db.histPrice e.1 as_of with
          | none => total
          | some price_record =>
            if price_record.price = 0 then total
            else
              let fx0 := fx_at db instrument.currency db.base_currency as_of
              let fx_rate :=
                if qtruthy fx0 then fx0
                else fx_now db instrument.currency db.base_currency
              if qtruthy fx_rate then
                total + e.2 * price_record.price * fx_rate.getD 0
              else total) 0

/-- The `while current <= to_time` slot-generation loop of
`calculate_required_time_slots`, with an explicit fuel argument so the
recursion is structural; `calculate_required_time_slots` supplies fuel that
provably suffices for any step ≥ 1 (see `stepLoop_fuel_irrelevant`). -/
def stepLoop (step to_time : Int) : Nat → Int → List Int
  | 0, _ => []
  | fuel + 1, current =>
    if current ≤ to_time then current :: stepLoop step to_time fuel (current + step)
    else []

/-- Fuel that dominates the iteration count of the slot loop for step ≥ 1. -/
def loopFuel (to_time current : Int) : Nat :=
  (to_time - current).toNat + 1

/-- `current.replace(minute=0, second=0, microsecond=0)`: truncate down to the
hour (UTC).  Python `%` on a positive modulus is `Int.emod`, written `%`. -/
def truncHour (t : Int) : Int := t - t % 3600

/-- `current.replace(hour=0, minute=0, second=0, microsecond=0)`: truncate
down to midnight (UTC). -/
def truncDay (t : Int) : Int := t - t % 86400

/-- `hour = (current.hour // 6) * 6` followed by `replace(hour=hour, ...)`:
truncate down to the nearest 0/6/12/18 UTC hour boundary. -/
def trunc6Hour (t : Int) : Int :=
  let hour := (((t % 86400) / 3600) / 6) * 6
  truncDay t + hour * 3600

/-- `current.weekday()`: 0 = Monday.  The epoch day (1970-01-01) was a
Thursday (weekday 3).  Python floor division `//` by the positive constant
86400 coincides with Euclidean division, written `/`. -/
def pyWeekday (t : Int) : Int := ((t / 86400) + 3) % 7

/-- Truncation to the Monday midnight of `t`'s week:
`replace(hour=0,...) - timedelta(days=days_since_monday)`. -/
def truncWeek (t : Int) : Int := truncDay t - pyWeekday t * 86400

/-- `calculate_required_time_slots` (`jobs/snapshots.py` lines 174-222):
truncate `from_time` down per the granularity, then step by the fixed
interval while `current <= to_time`; unknown granularities yield no slots. -/
def calculate_required_time_slots (from_time to_time : Int) (granularity : String) :
    List Int :=
  if granularity = "hourly" then
    let current := truncHour from_time
    stepLoop 3600 to_time (loopFuel to_time current) current
  else if granularity = "6hourly" then
    let current := trunc6Hour from_time
    stepLoop 21600 to_time (loopFuel to_time current) current
  else if granularity = "daily" then
    let current := truncDay from_time
    stepLoop 86400 to_time (loopFuel to_time current) current
  else if granularity = "weekly" then
    let current := truncWeek from_time
    stepLoop 604800 to_time (loopFuel to_time current) current
  else []

/-- A row of the `portfolio_valuation_snapshots` table (fields the jobs touch).
Allocation maps and the movers list are stored JSON, modelled as ordered
key/value lists. -/
structure Snapshot where
  as_of : Int
  total_value : ℚ
  total_cost_basis : ℚ
  unrealized_pl : ℚ
  daily_pl : Option ℚ
  allocation_by_type : Option (List (String × ℚ))
  allocation_by_sector : Option (List (String × ℚ))
  top_movers : Option (List (String × ℚ × ℚ))
  deriving Repr, DecidableEq

/-- The snapshot inserted for a backfilled missing slot
(`jobs/snapshots.py` lines 568-586): only `total_value` is computed; cost
basis and unrealized P/L are zero and the optional analytics fields null. -/
def mkBackfillSnapshot (db : Db) (slot : Int) : Snapshot :=
  { as_of := slot
    total_value := calculate_portfolio_value_at_time db slot
    total_cost_basis := 0
    unrealized_pl := 0
    daily_pl := none
    allocation_by_type := none
    allocation_by_sector := none
    top_movers := none }

/-- `as_of` values of stored snapshots with `as_of ∈ [from_time, to_time]`
(the `existing_times` set of `ensure_snapshots_for_range`). -/
def existingTimesIn (store : List Snapshot) (from_time to_time : Int) : List Int :=
  (store.filter (fun s => from_time ≤ s.as_of && s.as_of ≤ to_time)).map (·.as_of)

/-- The missing-slot test of `ensure_snapshots_for_range` (lines 538-557): a
slot is missing when no in-range snapshot matches it exactly and none lies
within 60 seconds of it. -/
def isMissingSlot (existing_times : List Int) (slot : Int) : Bool :=
  !(existing_times.any (fun e => slot = e)) &&
  !(existing_times.any (fun e => |slot - e| < 60))

/-- The backfill loop of `ensure_snapshots_for_range` (lines 559-593): for
each missing slot, re-check for an exact-timestamp collision against the
whole store (race-condition guard; inserts made earlier in the loop are
visible) and otherwise insert a value-only snapshot, counting insertions. -/
def backfillLoop (db : Db) : List Int → List Snapshot → Nat → List Snapshot × Nat
  | [], store, cnt => (store, cnt)
  | slot :: rest, store, cnt =>
    if store.any (fun s => s.as_of = slot) then backfillLoop db rest store cnt
    else backfillLoop db rest (store ++ [mkBackfillSnapshot db slot]) (cnt + 1)

/-- `ensure_snapshots_for_range` (`jobs/snapshots.py` lines 508-598). -/
def ensure_snapshots_for_range (db : Db) (store : List Snapshot)
    (from_time to_time : Int) (granularity : String) : List Snapshot × Nat :=
  let required_slots := calculate_required_time_slots from_time to_time granularity
  if required_slots.isEmpty then (store, 0)
  else
    let existing_times := existingTimesIn store from_time to_time
    let missing_slots := required_slots.filter (isMissingSlot existing_times)
    backfillLoop db missing_slots store 0

/-- `recalculate_snapshots_after_transaction` (`jobs/snapshots.py` lines
601-667): every stored snapshot with `as_of >= transaction_time` gets its
`total_value` (and nothing else) recomputed in place via
`calculate_portfolio_value_at_time`; the per-row updates are independent, so
walking them in ascending `as_of` order is the pointwise update below.  The
returned count is the number of recalculated snapshots. -/
def recalculate_snapshots_after_transaction (db : Db) (store : List Snapshot)
    (transaction_time : Int) : List Snapshot × Nat :=
  let targets := store.filter (fun s => transaction_time ≤ s.as_of)
  (store.map (fun s =>
      if transaction_time ≤ s.as_of then
        { s with total_value := calculate_portfolio_value_at_time db s.as_of }
      else s),
   targets.length)

/-- The `PositionInfo` response schema fields used by the valuation code. -/
structure PositionInfo where
  instrumentId : Nat
  symbol : String
  name : String
  type : String
  sector : Option String
  quantity : ℚ
  avgCostBase : ℚ
  marketPrice : Option ℚ
  valueBase : Option ℚ
  unrealizedPL : Option ℚ
  dailyPL : Option ℚ
  currency : String
  deriving Repr, DecidableEq

/-- The `PortfolioTotals` response schema. -/
structure PortfolioTotals where
  totalValue : ℚ
  totalCostBasis : ℚ
  unrealizedPL : ℚ
  dailyPL : ℚ
  deriving Repr, DecidableEq

/-- The `MoverInfo` response schema. -/
structure MoverInfo where
  symbol : String
  pct : ℚ
  abs : ℚ
  deriving Repr, DecidableEq

/-- The `PortfolioHoldingsResponse` schema (allocation maps modelled as
insertion-ordered key/value lists, like Python dicts). -/
structure PortfolioHoldingsResponse where
  baseCurrency : String
  totals : PortfolioTotals
  positions : List PositionInfo
  allocationByType : List (String × ℚ)
  allocationBySector : List (String × ℚ)
  bestMovers : List MoverInfo
  worstMovers : List MoverInfo
  deriving Repr, DecidableEq

/-- One iteration of the per-position loop of `get_portfolio_view`
(`services/portfolio.py` lines 228-282), threading the accumulated
`position_infos`, `total_value` and `total_cost_basis`.  Unknown instruments
are skipped; cost basis accrues whenever `avg_cost > 0` and an FX rate is
truthy, independently of price availability; value, unrealized P/L and
daily P/L are computed only when `market_price and fx_rate` is truthy. -/
def viewStep (db : Db) (acc : List PositionInfo × ℚ × ℚ) (position : Position) :
    List PositionInfo × ℚ × ℚ :=
  match instLookup db position.instrument_id with
  | none => acc
  | some instrument =>
    let price_record := db.latestPrice position.instrument_id
    let market_price : Option ℚ := price_record.map (·.price)
    let fx_rate := fx_now db instrument.currency db.base_currency
    let hasCB := position.avg_cost_trade_ccy > 0 ∧ qtruthy fx_rate
    let remaining_cost_base :=
      if hasCB then position.quantity * position.avg_cost_trade_ccy * fx_rate.getD 0
      else 0
    let avg_cost_base :=
      if hasCB then position.avg_cost_trade_ccy * fx_rate.getD 0 else 0
    let total_cost_basis := acc.2.2 + remaining_cost_base
    let priced := qtruthy market_price ∧ qtruthy fx_rate
    let value_base : Option ℚ :=
      if priced then
        some (position.quantity * market_price.getD 0 * fx_rate.getD 0)
      else none
    let total_value := if priced then acc.2.1 + value_base.getD 0 else acc.2.1
    let unrealized_pl : Option ℚ :=
      if priced then some (value_base.getD 0 - remaining_cost_base) else none
    let daily_pl : Option ℚ :=
      if priced then
        match price_record with
        | none => none
        | some pr =>
          if qtruthy pr.day_change_abs then
            some (position.quantity * pr.day_change_abs.getD 0 * fx_rate.getD 0)
          else
            match db.prevClose position.instrument_id with
            | none => none
            | some pc =>
              if pc.price ≠ 0 then
                some (value_base.getD 0 -
                  position.quantity * pc.price * fx_rate.getD 0)
              else none
      else none
    let info : PositionInfo :=
      { instrumentId := position.instrument_id
        symbol := instrument.symbol
        name := instrument.name
        type := instrument.type
        sector := instrument.sector
        quantity := position.quantity
        avgCostBase := avg_cost_base
        marketPrice := market_price
        valueBase := value_base
        unrealizedPL := unrealized_pl
        dailyPL := daily_pl
        currency := instrument.currency }
    (acc.1 ++ [info], total_value, total_cost_basis)

/-- `allocation[k] = allocation.get(k, 0.0) + v` on an insertion-ordered dict:
update the existing entry in place or append a new one. -/
def allocAdd : List (String × ℚ) → String → ℚ → List (String × ℚ)
  | [], k, v => [(k, v)]
  | e :: rest, k, v =>
    if e.1 = k then (e.1, e.2 + v) :: rest else e :: allocAdd rest k v

/-- `_compute_allocation_by_type` (`services/portfolio.py` lines 302-316):
positions with a truthy `valueBase` are grouped by instrument type and
normalized by `total_value`. -/
def compute_allocation_by_type (positions : List PositionInfo) (total_value : ℚ) :
    List (String × ℚ) :=
  if total_value = 0 then []
  else
    let allocation := positions.foldl
      (fun a pos =>
        if qtruthy pos.valueBase then allocAdd a pos.type (pos.valueBase.getD 0)
        else a) []
    allocation.map (fun e => (e.1, e.2 / total_value))

/-- `_compute_allocation_by_sector` (`services/portfolio.py` lines 319-341):
only positions with a truthy sector and a truthy `valueBase` participate, and
the weights are renormalized by the sector subset's own total. -/
def compute_allocation_by_sector (positions : List PositionInfo) (total_value : ℚ) :
    List (String × ℚ) :=
  if total_value = 0 then []
  else
    let acc := positions.foldl
      (fun (acc : List (String × ℚ) × ℚ) pos =>
        if struthy pos.sector ∧ qtruthy pos.valueBase then
          (allocAdd acc.1 (pos.sector.getD "") (pos.valueBase.getD 0),
           acc.2 + pos.valueBase.getD 0)
        else acc) ([], 0)
    if acc.2 = 0 then []
    else acc.1.map (fun e => (e.1, e.2 / acc.2))

/-- Stable insertion of a mover into a list sorted descending by `|abs|`:
an element is placed before the first strictly smaller key, so among equal
keys earlier input elements stay first. -/
def moverInsert (m : MoverInfo) : List MoverInfo → List MoverInfo
  | [] => [m]
  | x :: xs => if |m.abs| ≥ |x.abs| then m :: x :: xs else x :: moverInsert m xs

/-- Stable sort of movers by `|abs|` descending.  Python's `list.sort` with
`key=abs(x.abs), reverse=True` is a stable descending sort, and a stable sort
over a total key order is uniquely determined, so this insertion sort computes
exactly the source's ordering. -/
def sortMoversDesc : List MoverInfo → List MoverInfo
  | [] => []
  | x :: xs => moverInsert x (sortMoversDesc xs)

/-- `_compute_best_worst_movers` (`services/portfolio.py` lines 344-372):
build movers from positions with a present `dailyPL` and truthy `valueBase`,
sort by `|dailyPL|` descending, take the top 3 positive and top 3 negative,
and reverse the negative list. -/
def compute_best_worst_movers (positions : List PositionInfo) :
    List MoverInfo × List MoverInfo :=
  let movers := positions.foldl
    (fun ms pos =>
      if pos.dailyPL.isSome ∧ qtruthy pos.valueBase then
        let vb := pos.valueBase.getD 0
        let dp := pos.dailyPL.getD 0
        let pct := if vb > 0 then dp / vb * 100 else 0
        ms ++ [⟨pos.symbol, pct, dp⟩]
      else ms) []
  if movers.isEmpty then ([], [])
  else
    let sorted := sortMoversDesc movers
    let best := (sorted.filter (fun m => m.abs > 0)).take 3
    let worst := ((sorted.filter (fun m => m.abs < 0)).take 3).reverse
    (best, worst)

/-- `get_portfolio_view` (`services/portfolio.py` lines 167-299): compute
positions from the ledger, value them with latest prices and current FX, and
assemble totals, allocations and movers; an empty portfolio yields zeroed
totals and empty collections. -/
def get_portfolio_view (db : Db) : PortfolioHoldingsResponse :=
  let positions_dict := compute_positions db.transactions
  if positions_dict.isEmpty then
    { baseCurrency := db.base_currency
      totals := ⟨0, 0, 0, 0⟩
      positions := []
      allocationByType := []
      allocationBySector := []
      bestMovers := []
      worstMovers := [] }
  else
    let acc := positions_dict.foldl (viewStep db) ([], 0, 0)
    let position_infos := acc.1
    let total_value := acc.2.1
    let total_cost_basis := acc.2.2
    let total_unrealized_pl := total_value - total_cost_basis
    let total_daily_pl :=
      (position_infos.map
        (fun pos => if qtruthy pos.dailyPL then pos.dailyPL.getD 0 else 0)).sum
    let bw := compute_best_worst_movers position_infos
    { baseCurrency := db.base_currency
      totals := ⟨total_value, total_cost_basis, total_unrealized_pl, total_daily_pl⟩
      positions := position_infos
      allocationByType := compute_allocation_by_type position_infos total_value
      allocationBySector := compute_allocation_by_sector position_infos total_value
      bestMovers := bw.1
      worstMovers := bw.2 }

/-- The snapshot row built from a live portfolio view by `snapshot_portfolio`
(`jobs/snapshots.py` lines 85-103). -/
def mkViewSnapshot (view : PortfolioHoldingsResponse) (as_of : Int) : Snapshot :=
  { as_of := as_of
    total_value := view.totals.totalValue
    total_cost_basis := view.totals.totalCostBasis
    unrealized_pl := view.totals.unrealizedPL
    daily_pl := some view.totals.dailyPL
    allocation_by_type := some view.allocationByType
    allocation_by_sector := some view.allocationBySector
    top_movers := some ((view.bestMovers ++ view.worstMovers).map
      (fun m => (m.symbol, m.pct, m.abs))) }

/-- `snapshot_portfolio` (`jobs/snapshots.py` lines 22-106) on the
explicit-`as_of` (manual) path taken by `snapshot_user_portfolio_range`: if a
snapshot already exists within ±1 minute of `as_of` the call silently skips
(returns the store unchanged), otherwise it inserts a full view snapshot.
The `as_of is None` end-of-day path reads the wall clock and is not exercised
by the range job. -/
def snapshot_portfolio (db : Db) (store : List Snapshot) (as_of : Int) :
    List Snapshot :=
  let time_window_start := as_of - 60
  let time_window_end := as_of + 60
  if store.any (fun s => time_window_start ≤ s.as_of && s.as_of ≤ time_window_end)
  then store
  else store ++ [mkViewSnapshot (get_portfolio_view db) as_of]

/-- The `as_of` used by `snapshot_user_portfolio_range` for calendar day `d`
(days since epoch): 00:15 local time, converted to UTC, for a user timezone
that is `tzOffset` seconds east of UTC. -/
def rangeAsOf (d : Int) (tzOffset : Int) : Int :=
  d * 86400 + 900 - tzOffset

/-- The `while current_date <= end_date` loop of
`snapshot_user_portfolio_range`, with structural fuel;
`snapshot_user_portfolio_range` supplies fuel covering the whole range.  Each
iteration snapshots one day and counts it (the loop counts every day whose
`snapshot_portfolio` call did not raise; the modelled call is total, matching
the absence of database/oracle failures). -/
def rangeLoop (db : Db) (end_date tzOffset : Int) :
    Nat → Int → List Snapshot → List Snapshot × Nat
  | 0, _, store => (store, 0)
  | fuel + 1, current_date, store =>
    if current_date ≤ end_date then
      let store' := snapshot_portfolio db store (rangeAsOf current_date tzOffset)
      let r := rangeLoop db end_date tzOffset fuel (current_date + 1) store'
      (r.1, r.2 + 1)
    else (store, 0)

/-- `snapshot_user_portfolio_range` (`jobs/snapshots.py` lines 139-171):
one 00:15-local snapshot per calendar day in `[start_date, end_date]`,
returning the count of days processed without error. -/
def snapshot_user_portfolio_range (db : Db) (store : List Snapshot)
    (start_date end_date tzOffset : Int) : List Snapshot × Nat :=
  rangeLoop db end_date tzOffset ((end_date - start_date).toNat + 1) start_date store

/-! ## Helper lemmas: the Position Engine fold -/

theorem applyTxPos_instrument_id (p : Position) (tx : Tx) :
    (applyTxPos p tx).instrument_id = p.instrument_id := by
  unfold applyTxPos
  split <;> [skip; split] <;> rfl

theorem foldl_applyTx_single (txs : List Tx) (h0 : ∀ t ∈ txs, t.instrument_id = 0)
    (p : Position) (hp : p.instrument_id = 0) :
    List.foldl applyTx [p] txs = [List.foldl applyTxPos p txs] := by
  induction txs generalizing p with
  | nil => rfl
  | cons t ts ih =>
    have ht : t.instrument_id = 0 := (h0 t (by simp)).symm ▸ rfl
    have hstep : applyTx [p] t = [applyTxPos p t] := by
      simp [applyTx, posLookup, List.find?, hp, ht]
    simp only [List.foldl_cons, hstep]
    exact ih (fun x hx => h0 x (by simp [hx]))
      (applyTxPos p t) ((applyTxPos_instrument_id p t).trans hp)

theorem foldl_applyTx_from_nil (txs : List Tx) (hne : txs ≠ [])
    (h0 : ∀ t ∈ txs, t.instrument_id = 0) :
    List.foldl applyTx [] txs =
      [List.foldl applyTxPos ⟨0, 0, 0, 0⟩ txs] := by
  cases txs with
  | nil => exact absurd rfl hne
  | cons t ts =>
    have ht : t.instrument_id = 0 := h0 t (by simp)
    have hstep : applyTx [] t = [applyTxPos ⟨t.instrument_id, 0, 0, 0⟩ t] := by
      simp [applyTx, posLookup, List.find?]
    rw [List.foldl_cons, hstep, ht]
    rw [foldl_applyTx_single ts (fun x hx => h0 x (by simp [hx]))
      (applyTxPos ⟨0, 0, 0, 0⟩ t) ((applyTxPos_instrument_id _ t).trans rfl)]
    rfl

theorem applyTxPos_buy (p : Position) (tx : Tx) (hside : tx.side = "buy")
    (hq : 0 ≤ p.quantity) (htq : 0 < tx.quantity) :
    (applyTxPos p tx).quantity = p.quantity + tx.quantity ∧
    (applyTxPos p tx).quantity * (applyTxPos p tx).avg_cost_trade_ccy =
      p.quantity * (if 0 < p.quantity then p.avg_cost_trade_ccy else 0) +
        tx.quantity * tx.price := by
  have hpos : 0 < p.quantity + tx.quantity := by linarith
  unfold applyTxPos
  simp only [hside, if_pos rfl, if_pos hpos]
  refine ⟨rfl, ?_⟩
  field_simp

theorem applyTxPos_sell (p : Position) (tx : Tx) (hside : tx.side = "sell")
    (hlt : tx.quantity < p.quantity) :
    (applyTxPos p tx).quantity = p.quantity - tx.quantity ∧
    (applyTxPos p tx).avg_cost_trade_ccy = p.avg_cost_trade_ccy := by
  have hns : ¬ (p.quantity - tx.quantity < 0) := by linarith
  unfold applyTxPos
  simp [hside, hns]

theorem buys_fold_invariant (txs : List Tx)
    (h : ∀ t ∈ txs, t.side = "buy" ∧ 0 < t.quantity) :
    ∀ p : Position, 0 ≤ p.quantity →
    (List.foldl applyTxPos p txs).instrument_id = p.instrument_id ∧
    (List.foldl applyTxPos p txs).quantity =
      p.quantity + (txs.map (·.quantity)).sum ∧
    (List.foldl applyTxPos p txs).quantity *
        (List.foldl applyTxPos p txs).avg_cost_trade_ccy =
      p.quantity * (if 0 < p.quantity then p.avg_cost_trade_ccy else 0) +
        (txs.map (fun t => t.quantity * t.price)).sum := by
  induction txs with
  | nil =>
    intro p hp
    refine ⟨rfl, by simp, ?_⟩
    rcases lt_or_eq_of_le hp with h1 | h1
    · simp [if_pos h1]
    · simp [← h1]
  | cons t ts ih =>
    intro p hp
    obtain ⟨hside, htq⟩ := h t (by simp)
    obtain ⟨hq1, hm1⟩ := applyTxPos_buy p t hside hp htq
    have hq1pos : 0 < (applyTxPos p t).quantity := by rw [hq1]; linarith
    obtain ⟨hid, hq2, hm2⟩ := ih (fun x hx => h x (by simp [hx]))
      (applyTxPos p t) (le_of_lt hq1pos)
    refine ⟨?_, ?_, ?_⟩
    · rw [List.foldl_cons, hid, applyTxPos_instrument_id]
    · rw [List.foldl_cons, hq2, hq1]
      simp [add_assoc]
    · rw [List.foldl_cons, hm2, if_pos hq1pos, hm1]
      simp [add_assoc]

theorem sum_pos_of_all_pos (l : List ℚ) (hne : l ≠ []) (h : ∀ x ∈ l, 0 < x) :
    0 < l.sum := by
  cases l with
  | nil => exact absurd rfl hne
  | cons x xs =>
    have hx : 0 < x := h x (by simp)
    have hxs : 0 ≤ xs.sum := by
      apply List.sum_nonneg
      intro y hy
      exact le_of_lt (h y (by simp [hy]))
    simp only [List.sum_cons]
    linarith

/-- C1: for a ledger of buys only (quantities `q_i`, prices `p_i`, one
instrument), `_compute_positions` yields quantity `Σ q_i` and average cost
`Σ (q_i * p_i) / Σ q_i`; appending a sell of `s` units leaves the average
cost unchanged and reduces the quantity to `Σ q_i - s`.  The 10 @ 100,
5 @ 130, sell 8 example is the witness instance. -/
theorem C1_average_cost
    (txs : List Tx) (s : Tx) (hne : txs ≠ [])
    (hbuys : ∀ t ∈ txs,
      t.side = "buy" ∧ t.instrument_id = 0 ∧ t.deleted = false ∧ 0 < t.quantity)
    (hs : s.side = "sell" ∧ s.instrument_id = 0 ∧ s.deleted = false ∧
      0 < s.quantity)
    (hlt : s.quantity < (txs.map (·.quantity)).sum) :
    ∃ p p' : Position,
      posLookup (compute_positions txs) 0 = some p ∧
      posLookup (compute_positions (txs ++ [s])) 0 = some p' ∧
      p.quantity = (txs.map (·.quantity)).sum ∧
      p.avg_cost_trade_ccy =
        (txs.map (fun t => t.quantity * t.price)).sum / (txs.map (·.quantity)).sum ∧
      p'.quantity = (txs.map (·.quantity)).sum - s.quantity ∧
      p'.avg_cost_trade_ccy = p.avg_cost_trade_ccy := by
  obtain ⟨hs_side, hs_iid, hs_del, hs_q⟩ := hs
  have hfilter : txs.filter (fun t => !t.deleted) = txs := by
    apply List.filter_eq_self.mpr
    intro t ht
    simp [(hbuys t ht).2.2.1]
  have hfilter' : (txs ++ [s]).filter (fun t => !t.deleted) = txs ++ [s] := by
    apply List.filter_eq_self.mpr
    intro t ht
    rcases List.mem_append.mp ht with h1 | h1
    · simp [(hbuys t h1).2.2.1]
    · simp at h1
      simp [h1, hs_del]
  have h0 : ∀ t ∈ txs, t.instrument_id = 0 := fun t ht => (hbuys t ht).2.1
  set p0 : Position := List.foldl applyTxPos ⟨0, 0, 0, 0⟩ txs with hp0
  obtain ⟨hid, hq, hm⟩ := buys_fold_invariant txs
    (fun t ht => ⟨(hbuys t ht).1, (hbuys t ht).2.2.2⟩) ⟨0, 0, 0, 0⟩ (le_refl 0)
  have hsum_pos : 0 < (txs.map (·.quantity)).sum := by
    apply sum_pos_of_all_pos
    · simpa using hne
    · intro x hx
      obtain ⟨t, ht, rfl⟩ := List.mem_map.mp hx
      exact (hbuys t ht).2.2.2
  have hq0 : p0.quantity = (txs.map (·.quantity)).sum := by
    rw [hp0, hq]; ring
  have hq0pos : 0 < p0.quantity := hq0 ▸ hsum_pos
  have havg : p0.avg_cost_trade_ccy =
      (txs.map (fun t => t.quantity * t.price)).sum / (txs.map (·.quantity)).sum := by
    have := hm
    simp only [show ((⟨0, 0, 0, 0⟩ : Position).quantity) = 0 from rfl] at this
    rw [eq_div_iff (ne_of_gt hsum_pos), ← hq0]
    rw [mul_comm]
    simpa using this
  have hfold : List.foldl applyTx [] txs = [p0] :=
    foldl_applyTx_from_nil txs hne h0
  have hid0 : p0.instrument_id = 0 := hid
  have hlook : posLookup (compute_positions txs) 0 = some p0 := by
    simp only [compute_positions]
    rw [hfilter, hfold]
    simp [posLookup, List.find?, List.filter, hq0pos, hid0]
  -- the appended sell
  obtain ⟨hsq, hsavg⟩ := applyTxPos_sell p0 s hs_side (by rw [hq0]; exact hlt)
  have hfold' : List.foldl applyTx [] (txs ++ [s]) = [applyTxPos p0 s] := by
    rw [List.foldl_append, hfold]
    simp [applyTx, posLookup, List.find?, hid0, hs_iid]
  have hq'pos : 0 < (applyTxPos p0 s).quantity := by
    rw [hsq, hq0]; linarith
  have hid0' : (applyTxPos p0 s).instrument_id = 0 :=
    (applyTxPos_instrument_id p0 s).trans hid0
  have hlook' : posLookup (compute_positions (txs ++ [s])) 0 = some (applyTxPos p0 s) := by
    simp only [compute_positions]
    rw [hfilter', hfold']
    simp [posLookup, List.find?, List.filter, hq'pos, hid0']
  exact ⟨p0, applyTxPos p0 s, hlook, hlook', hq0, havg,
    by rw [hsq, hq0], hsavg⟩

/-- C1 witness: buy 10 @ 100 then buy 5 @ 130 gives quantity 15 at average
cost 110; a subsequent sell of 8 gives quantity 7 at average cost 110. -/
theorem C1_average_cost_witness :
    (8 : ℚ) <
      (([⟨0, "buy", 10, 100, "USD", 0, none, false⟩,
         ⟨0, "buy", 5, 130, "USD", 1, none, false⟩] : List Tx).map (·.quantity)).sum ∧
    posLookup (compute_positions
      [⟨0, "buy", 10, 100, "USD", 0, none, false⟩,
       ⟨0, "buy", 5, 130, "USD", 1, none, false⟩]) 0 =
      some ⟨0, 15, 110, 0⟩ ∧
    posLookup (compute_positions
      ([⟨0, "buy", 10, 100, "USD", 0, none, false⟩,
        ⟨0, "buy", 5, 130, "USD", 1, none, false⟩] ++
       [⟨0, "sell", 8, 0, "USD", 2, none, false⟩])) 0 =
      some ⟨0, 7, 110, 0⟩ ∧
    (∃ p p' : Position,
      posLookup (compute_positions
        [⟨0, "buy", 10, 100, "USD", 0, none, false⟩,
         ⟨0, "buy", 5, 130, "USD", 1, none, false⟩]) 0 = some p ∧
      posLookup (compute_positions
        ([⟨0, "buy", 10, 100, "USD", 0, none, false⟩,
          ⟨0, "buy", 5, 130, "USD", 1, none, false⟩] ++
         [⟨0, "sell", 8, 0, "USD", 2, none, false⟩])) 0 = some p' ∧
      p.quantity =
        (([⟨0, "buy", 10, 100, "USD", 0, none, false⟩,
           ⟨0, "buy", 5, 130, "USD", 1, none, false⟩] : List Tx).map (·.quantity)).sum ∧
      p.avg_cost_trade_ccy =
        (([⟨0, "buy", 10, 100, "USD", 0, none, false⟩,
           ⟨0, "buy", 5, 130, "USD", 1, none, false⟩] : List Tx).map
             (fun t => t.quantity * t.price)).sum /
        (([⟨0, "buy", 10, 100, "USD", 0, none, false⟩,
           ⟨0, "buy", 5, 130, "USD", 1, none, false⟩] : List Tx).map (·.quantity)).sum ∧
      p'.quantity =
        (([⟨0, "buy", 10, 100, "USD", 0, none, false⟩,
           ⟨0, "buy", 5, 130, "USD", 1, none, false⟩] : List Tx).map (·.quantity)).sum -
          (⟨0, "sell", 8, 0, "USD", 2, none, false⟩ : Tx).quantity ∧
      p'.avg_cost_trade_ccy = p.avg_cost_trade_ccy) :=
  ⟨by norm_num,
   by simp [compute_positions, applyTx, applyTxPos, posLookup, qtruthy]; norm_num,
   by simp [compute_positions, applyTx, applyTxPos, posLookup, qtruthy]; norm_num,
   C1_average_cost
     [⟨0, "buy", 10, 100, "USD", 0, none, false⟩,
      ⟨0, "buy", 5, 130, "USD", 1, none, false⟩]
     ⟨0, "sell", 8, 0, "USD", 2, none, false⟩
     (by simp) (by norm_num) (by norm_num) (by norm_num)⟩

/-! ## Helper lemmas: non-negativity of quantities -/

theorem applyTxPos_nonneg (p : Position) (tx : Tx) (hp : 0 ≤ p.quantity)
    (htx : 0 ≤ tx.quantity) : 0 ≤ (applyTxPos p tx).quantity := by
  unfold applyTxPos
  split
  · simpa using by linarith
  · split
    · simp only
      split <;> [exact le_refl 0; linarith [not_lt.mp (by assumption)]]
    · exact hp

theorem applyTx_nonneg (m : List Position) (tx : Tx)
    (hm : ∀ p ∈ m, 0 ≤ p.quantity) (htx : 0 ≤ tx.quantity) :
    ∀ p ∈ applyTx m tx, 0 ≤ p.quantity := by
  have hm'' : ∀ q ∈ (if (posLookup m tx.instrument_id).isSome then m
      else m ++ [⟨tx.instrument_id, 0, 0, 0⟩]), 0 ≤ q.quantity := by
    split
    · exact hm
    · intro q hq
      rcases List.mem_append.mp hq with h1 | h1
      · exact hm q h1
      · simp at h1
        simp [h1]
  intro p hp
  simp only [applyTx] at hp
  obtain ⟨q, hq, rfl⟩ := List.mem_map.mp hp
  by_cases hcase : q.instrument_id = tx.instrument_id
  · simp only [if_pos hcase]
    exact applyTxPos_nonneg q tx (hm'' q hq) htx
  · simp only [if_neg hcase]
    exact hm'' q hq

theorem foldl_applyTx_nonneg (txs : List Tx) (m : List Position)
    (htxs : ∀ t ∈ txs, 0 ≤ t.quantity) (hm : ∀ p ∈ m, 0 ≤ p.quantity) :
    ∀ p ∈ List.foldl applyTx m txs, 0 ≤ p.quantity := by
  induction txs generalizing m with
  | nil => exact hm
  | cons t ts ih =>
    rw [List.foldl_cons]
    exact ih (applyTx m t) (fun x hx => htxs x (by simp [hx]))
      (applyTx_nonneg m t hm (htxs t (by simp)))

theorem dlookup_mem_nonneg (m : List (Nat × ℚ)) (k : Nat)
    (hm : ∀ e ∈ m, 0 ≤ e.2) : 0 ≤ (dlookup m k).getD 0 := by
  unfold dlookup
  cases hfind : m.find? (fun e => e.1 = k) with
  | none => simp
  | some e => exact hm e (List.mem_of_find?_eq_some hfind)

theorem dinit_nonneg (m : List (Nat × ℚ)) (k : Nat) (hm : ∀ e ∈ m, 0 ≤ e.2) :
    ∀ e ∈ dinit m k, 0 ≤ e.2 := by
  intro e he
  unfold dinit at he
  split at he
  · exact hm e he
  · rcases List.mem_append.mp he with h1 | h1
    · exact hm e h1
    · simp at h1
      simp [h1]

theorem dset_nonneg (m : List (Nat × ℚ)) (k : Nat) (v : ℚ)
    (hm : ∀ e ∈ m, 0 ≤ e.2) (hv : 0 ≤ v) : ∀ e ∈ dset m k v, 0 ≤ e.2 := by
  intro e he
  unfold dset at he
  obtain ⟨q, hq, rfl⟩ := List.mem_map.mp he
  split
  · simpa using hv
  · exact hm q hq

theorem calcApplyTx_nonneg (st : CalcState) (tx : Tx)
    (hm : ∀ e ∈ st.positions, 0 ≤ e.2) (htx : 0 ≤ tx.quantity) :
    ∀ e ∈ (calcApplyTx st tx).positions, 0 ≤ e.2 := by
  have hps : ∀ e ∈ dinit st.positions tx.instrument_id, 0 ≤ e.2 :=
    dinit_nonneg st.positions tx.instrument_id hm
  have hold : 0 ≤ (dlookup (dinit st.positions tx.instrument_id)
      tx.instrument_id).getD 0 :=
    dlookup_mem_nonneg _ _ hps
  unfold calcApplyTx
  split
  · simp only
    exact dset_nonneg _ _ _ hps (by linarith)
  · split
    · simp only
      apply dset_nonneg _ _ _ hps
      split <;> [exact le_refl 0; linarith [not_lt.mp (by assumption)]]
    · exact hps

theorem foldl_calcApplyTx_nonneg (txs : List Tx) (st : CalcState)
    (htxs : ∀ t ∈ txs, 0 ≤ t.quantity) (hm : ∀ e ∈ st.positions, 0 ≤ e.2) :
    ∀ e ∈ (List.foldl calcApplyTx st txs).positions, 0 ≤ e.2 := by
  induction txs generalizing st with
  | nil => exact hm
  | cons t ts ih =>
    rw [List.foldl_cons]
    exact ih (calcApplyTx st t) (fun x hx => htxs x (by simp [hx]))
      (calcApplyTx_nonneg st t hm (htxs t (by simp)))

/-- C7: with nonnegative transaction quantities (the ledger invariant), every
position quantity is nonnegative after processing any prefix of the ledger,
in both the Position Engine fold of `_compute_positions` and the re-implemented
fold of `calculate_portfolio_value_at_time`; an oversell floors at zero. -/
theorem C7_quantity_nonneg (txs : List Tx) (n : Nat)
    (h : ∀ t ∈ txs, 0 ≤ t.quantity) :
    (∀ p ∈ List.foldl applyTx [] (txs.take n), 0 ≤ p.quantity) ∧
    (∀ e ∈ (List.foldl calcApplyTx ⟨[], []⟩ (txs.take n)).positions, 0 ≤ e.2) := by
  have hsub : ∀ t ∈ txs.take n, 0 ≤ t.quantity :=
    fun t ht => h t (List.take_subset n txs ht)
  exact ⟨foldl_applyTx_nonneg _ [] hsub (by simp),
    foldl_calcApplyTx_nonneg _ ⟨[], []⟩ hsub (by simp)⟩

/-- C7 witness: buy 5 then sell 8 (an oversell); after each step quantities
are nonnegative, and the oversold position is floored at exactly zero. -/
theorem C7_quantity_nonneg_witness :
    (List.foldl applyTx []
      ([⟨0, "buy", 5, 10, "USD", 0, none, false⟩,
        ⟨0, "sell", 8, 0, "USD", 1, none, false⟩] : List Tx)).map (·.quantity) = [0] ∧
    ((∀ p ∈ List.foldl applyTx []
        (([⟨0, "buy", 5, 10, "USD", 0, none, false⟩,
           ⟨0, "sell", 8, 0, "USD", 1, none, false⟩] : List Tx).take 2),
        0 ≤ p.quantity) ∧
     (∀ e ∈ (List.foldl calcApplyTx ⟨[], []⟩
        (([⟨0, "buy", 5, 10, "USD", 0, none, false⟩,
           ⟨0, "sell", 8, 0, "USD", 1, none, false⟩] : List Tx).take 2)).positions,
        0 ≤ e.2)) :=
  ⟨by simp [applyTx, applyTxPos, posLookup, qtruthy]; norm_num,
   C7_quantity_nonneg
     [⟨0, "buy", 5, 10, "USD", 0, none, false⟩,
      ⟨0, "sell", 8, 0, "USD", 1, none, false⟩] 2 (by norm_num)⟩

/-! ## Helper lemmas: lookups after an update -/

theorem applyTxPos_buy_from_zero (p : Position) (tx : Tx) (hp : p.quantity = 0)
    (hside : tx.side = "buy") (hq : 0 < tx.quantity) :
    (applyTxPos p tx).avg_cost_trade_ccy = tx.price ∧
    (applyTxPos p tx).quantity = tx.quantity := by
  unfold applyTxPos
  simp only [hside, if_pos rfl, hp]
  constructor
  · simp only [lt_self_iff_false, if_false, zero_add, if_pos hq, mul_zero,
      zero_mul, zero_add]
    exact mul_div_cancel_left₀ tx.price (ne_of_gt hq)
  · simp

theorem posLookup_map_update (l : List Position) (tx : Tx) :
    posLookup (l.map (fun p =>
      if p.instrument_id = tx.instrument_id then applyTxPos p tx else p))
      tx.instrument_id =
    (posLookup l tx.instrument_id).map (fun p => applyTxPos p tx) := by
  induction l with
  | nil => rfl
  | cons a l ih =>
    by_cases h : a.instrument_id = tx.instrument_id
    · simp only [List.map_cons, if_pos h, posLookup]
      rw [List.find?_cons_of_pos _ (by simpa [applyTxPos_instrument_id] using h),
        List.find?_cons_of_pos _ (by simpa using h)]
      rfl
    · simp only [List.map_cons, if_neg h, posLookup]
      rw [List.find?_cons_of_neg _ (by simpa using h),
        List.find?_cons_of_neg _ (by simpa using h)]
      exact ih

theorem find?_cons_none {α : Type} (p : α → Bool) (a : α) (l : List α)
    (h : List.find? p (a :: l) = none) : p a = false ∧ List.find? p l = none := by
  cases hpa : p a with
  | true =>
    rw [List.find?_cons_of_pos _ hpa] at h
    exact absurd h (by simp)
  | false =>
    rw [List.find?_cons_of_neg _ (by simp [hpa])] at h
    exact ⟨rfl, h⟩

theorem posLookup_append_single {k : Nat} (l : List Position) (d : Position)
    (hd : d.instrument_id = k) (hl : posLookup l k = none) :
    posLookup (l ++ [d]) k = some d := by
  induction l with
  | nil => simp [posLookup, List.find?, hd]
  | cons a l ih =>
    obtain ⟨ha, htail⟩ := find?_cons_none _ a l hl
    rw [posLookup, List.cons_append, List.find?_cons_of_neg _ (by simp [ha])]
    exact ih htail

theorem posLookup_applyTx (m : List Position) (tx : Tx) :
    posLookup (applyTx m tx) tx.instrument_id =
      some (applyTxPos ((posLookup m tx.instrument_id).getD
        ⟨tx.instrument_id, 0, 0, 0⟩) tx) := by
  cases hl : posLookup m tx.instrument_id with
  | some p =>
    have h1 : applyTx m tx = m.map (fun p =>
        if p.instrument_id = tx.instrument_id then applyTxPos p tx else p) := by
      unfold applyTx
      rw [hl]
      rfl
    rw [h1, posLookup_map_update, hl]
    rfl
  | none =>
    have h1 : applyTx m tx =
        (m ++ [(⟨tx.instrument_id, 0, 0, 0⟩ : Position)]).map (fun p =>
          if p.instrument_id = tx.instrument_id then applyTxPos p tx else p) := by
      unfold applyTx
      rw [hl]
      rfl
    rw [h1, posLookup_map_update,
      posLookup_append_single m ⟨tx.instrument_id, 0, 0, 0⟩ rfl hl]
    rfl

theorem dlookup_dset_self (m : List (Nat × ℚ)) (k : Nat) (v : ℚ) :
    dlookup (dset m k v) k = (dlookup m k).map (fun _ => v) := by
  induction m with
  | nil => rfl
  | cons e l ih =>
    by_cases h : e.1 = k
    · simp only [dset, List.map_cons, if_pos h, dlookup]
      rw [List.find?_cons_of_pos _ (by simpa using h),
        List.find?_cons_of_pos _ (by simpa using h)]
      rfl
    · simp only [dset, List.map_cons, if_neg h, dlookup]
      rw [List.find?_cons_of_neg _ (by simpa using h),
        List.find?_cons_of_neg _ (by simpa using h)]
      exact ih

theorem dlookup_append_single (m : List (Nat × ℚ)) (k : Nat) (v : ℚ)
    (hl : dlookup m k = none) : dlookup (m ++ [(k, v)]) k = some v := by
  induction m with
  | nil => simp [dlookup, List.find?]
  | cons e l ih =>
    obtain ⟨he, htail⟩ := find?_cons_none _ e l (Option.map_eq_none'.mp hl)
    have hltail : dlookup l k = none := by
      rw [dlookup, Option.map_eq_none']
      exact htail
    rw [dlookup, List.cons_append, List.find?_cons_of_neg _ (by simp [he])]
    exact ih hltail

theorem dlookup_dinit_self (m : List (Nat × ℚ)) (k : Nat) :
    dlookup (dinit m k) k = some ((dlookup m k).getD 0) := by
  unfold dinit
  cases hl : dlookup m k with
  | some x => simp [hl]
  | none =>
    simp only [hl, Option.isSome_none, Bool.false_eq_true, if_false,
      Option.getD_none]
    exact dlookup_append_single m k 0 hl

/-- C9: a buy that lands on a zero running quantity (first transaction for the
instrument, or quantity previously floored to zero) makes the average cost
equal to that buy's price alone, discarding any previously accumulated
average-cost value — in both the `_compute_positions` fold and the
`calculate_portfolio_value_at_time` fold. -/
theorem C9_avg_cost_reset_on_zero_qty (txs : List Tx) (tx : Tx)
    (hside : tx.side = "buy") (hq : 0 < tx.quantity) :
    ((((posLookup (List.foldl applyTx [] txs) tx.instrument_id).map
        (·.quantity)).getD 0 = 0 →
      ∃ p', posLookup (applyTx (List.foldl applyTx [] txs) tx)
          tx.instrument_id = some p' ∧
        p'.avg_cost_trade_ccy = tx.price ∧ p'.quantity = tx.quantity)) ∧
    ((dlookup (List.foldl calcApplyTx ⟨[], []⟩ txs).positions
        tx.instrument_id).getD 0 = 0 →
      dlookup (calcApplyTx (List.foldl calcApplyTx ⟨[], []⟩ txs) tx).avg_costs
        tx.instrument_id = some tx.price) := by
  constructor
  · intro hzero
    set m := List.foldl applyTx [] txs with hm
    set y := (posLookup m tx.instrument_id).getD ⟨tx.instrument_id, 0, 0, 0⟩
      with hy
    have hyq : y.quantity = 0 := by
      rw [hy]
      cases hl : posLookup m tx.instrument_id with
      | none => rfl
      | some p =>
        simp only [hl, Option.map_some] at hzero
        simpa using hzero
    obtain ⟨havg, hqty⟩ := applyTxPos_buy_from_zero y tx hyq hside hq
    exact ⟨applyTxPos y tx, posLookup_applyTx m tx, havg, hqty⟩
  · intro hzero
    set st := List.foldl calcApplyTx ⟨[], []⟩ txs with hst
    have hps : dlookup (dinit st.positions tx.instrument_id) tx.instrument_id =
        some 0 := by
      rw [dlookup_dinit_self, hzero]
    unfold calcApplyTx
    simp only [hside, if_pos rfl, hps, Option.getD_some, lt_self_iff_false,
      if_false, zero_add, if_pos hq, mul_zero, zero_mul, if_true]
    rw [dlookup_dset_self, dlookup_dinit_self]
    simp only [Option.map_some']
    congr 1
    exact mul_div_cancel_left₀ tx.price (ne_of_gt hq)

/-- C9 witness: buy 10 @ 100, sell the full 10 (quantity floored to zero),
then buy 5 @ 130: the new average cost is 130, not a blend with 100. -/
theorem C9_avg_cost_reset_on_zero_qty_witness :
    (((posLookup (List.foldl applyTx []
        ([⟨0, "buy", 10, 100, "USD", 0, none, false⟩,
          ⟨0, "sell", 10, 0, "USD", 1, none, false⟩] : List Tx)) 0).map
        (·.quantity)).getD 0 = 0) ∧
    (∃ p', posLookup (applyTx (List.foldl applyTx []
        ([⟨0, "buy", 10, 100, "USD", 0, none, false⟩,
          ⟨0, "sell", 10, 0, "USD", 1, none, false⟩] : List Tx))
        ⟨0, "buy", 5, 130, "USD", 2, none, false⟩) 0 = some p' ∧
      p'.avg_cost_trade_ccy = 130 ∧ p'.quantity = 5) := by
  have h := (C9_avg_cost_reset_on_zero_qty
    [⟨0, "buy", 10, 100, "USD", 0, none, false⟩,
     ⟨0, "sell", 10, 0, "USD", 1, none, false⟩]
    ⟨0, "buy", 5, 130, "USD", 2, none, false⟩ rfl (by norm_num)).1
  have hzero : ((posLookup (List.foldl applyTx []
      ([⟨0, "buy", 10, 100, "USD", 0, none, false⟩,
        ⟨0, "sell", 10, 0, "USD", 1, none, false⟩] : List Tx)) 0).map
      (·.quantity)).getD 0 = 0 := by
    simp [applyTx, applyTxPos, posLookup, qtruthy]
  exact ⟨hzero, h hzero⟩

/-- C2: `recalculate_snapshots_after_transaction` keeps the store's length,
counts exactly the snapshots with `as_of >= transaction_time`, leaves every
snapshot with `as_of < transaction_time` completely unchanged, and replaces
each snapshot with `as_of >= transaction_time` by one whose `total_value` is
the historical valuation at its `as_of` and whose every other field (as_of,
cost basis, unrealized P/L, daily P/L, allocations, movers) is untouched. -/
theorem C2_recalculate_frame (db : Db) (store : List Snapshot)
    (transaction_time : Int) (i : Nat) (hi : i < store.length) :
    ((recalculate_snapshots_after_transaction db store transaction_time).1.length
        = store.length) ∧
    ((recalculate_snapshots_after_transaction db store transaction_time).2 =
        (store.filter (fun s => transaction_time ≤ s.as_of)).length) ∧
    (store[i].as_of < transaction_time →
      (recalculate_snapshots_after_transaction db store transaction_time).1[i]? =
        some store[i]) ∧
    (transaction_time ≤ store[i].as_of →
      ∃ s', (recalculate_snapshots_after_transaction db store
          transaction_time).1[i]? = some s' ∧
        s'.total_value = calculate_portfolio_value_at_time db store[i].as_of ∧
        s'.as_of = store[i].as_of ∧
        s'.total_cost_basis = store[i].total_cost_basis ∧
        s'.unrealized_pl = store[i].unrealized_pl ∧
        s'.daily_pl = store[i].daily_pl ∧
        s'.allocation_by_type = store[i].allocation_by_type ∧
        s'.allocation_by_sector = store[i].allocation_by_sector ∧
        s'.top_movers = store[i].top_movers) := by
  have hmap : (recalculate_snapshots_after_transaction db store
      transaction_time).1 =
      store.map (fun s => if transaction_time ≤ s.as_of then
        { s with total_value := calculate_portfolio_value_at_time db s.as_of }
        else s) := rfl
  have hget : (recalculate_snapshots_after_transaction db store
      transaction_time).1[i]? =
      some (if transaction_time ≤ store[i].as_of then
        { store[i] with
          total_value := calculate_portfolio_value_at_time db store[i].as_of }
        else store[i]) := by
    rw [hmap, List.getElem?_map, List.getElem?_eq_getElem hi]
    rfl
  refine ⟨by rw [hmap, List.length_map], rfl, ?_, ?_⟩
  · intro hlt
    rw [hget, if_neg (not_le.mpr hlt)]
  · intro hle
    exact ⟨{ store[i] with
        total_value := calculate_portfolio_value_at_time db store[i].as_of },
      by rw [hget, if_pos hle], rfl, rfl, rfl, rfl, rfl, rfl, rfl, rfl⟩

/-- A one-buy, one-instrument database used to exercise the snapshot jobs on
concrete inputs. -/
def exDb : Db :=
  { transactions := [⟨0, "buy", 2, 5, "USD", 100, none, false⟩]
    instruments := [⟨0, "AAA", "AAA Corp", "stock", none, "USD"⟩]
    latestPrice := fun _ => none
    prevClose := fun _ => none
    histPrice := fun _ _ => some ⟨3, 0, none, none⟩
    fxOracleAt := fun _ _ _ => none
    fxOracleNow := fun _ _ => none
    base_currency := "USD" }

/-- Two stored snapshots, one before and one after the inserted transaction
time used in the C2 witness. -/
def exStore : List Snapshot :=
  [⟨50, 1, 0, 0, none, none, none, none⟩,
   ⟨200, 1, 2, 3, some 4, none, none, none⟩]

/-- C2 witness: with a transaction inserted at t = 120, the snapshot at
`as_of = 200` is recalculated in place. -/
theorem C2_recalculate_frame_witness :
    (1 < exStore.length) ∧
    (((recalculate_snapshots_after_transaction exDb exStore 120).1.length
        = exStore.length) ∧
     ((recalculate_snapshots_after_transaction exDb exStore 120).2 =
        (exStore.filter (fun s => 120 ≤ s.as_of)).length) ∧
     (exStore[1].as_of < 120 →
       (recalculate_snapshots_after_transaction exDb exStore 120).1[1]? =
         some exStore[1]) ∧
     (120 ≤ exStore[1].as_of →
       ∃ s', (recalculate_snapshots_after_transaction exDb exStore 120).1[1]? =
           some s' ∧
         s'.total_value = calculate_portfolio_value_at_time exDb exStore[1].as_of ∧
         s'.as_of = exStore[1].as_of ∧
         s'.total_cost_basis = exStore[1].total_cost_basis ∧
         s'.unrealized_pl = exStore[1].unrealized_pl ∧
         s'.daily_pl = exStore[1].daily_pl ∧
         s'.allocation_by_type = exStore[1].allocation_by_type ∧
         s'.allocation_by_sector = exStore[1].allocation_by_sector ∧
         s'.top_movers = exStore[1].top_movers)) :=
  ⟨by norm_num [exStore],
   C2_recalculate_frame exDb exStore 120 1 (by norm_num [exStore])⟩

/-! ## Helper lemmas: slot generation -/

theorem stepLoop_mem_bounds (step to_time : Int) (hstep : 0 ≤ step) :
    ∀ (fuel : Nat) (current : Int), ∀ s ∈ stepLoop step to_time fuel current,
      current ≤ s ∧ s ≤ to_time := by
  intro fuel
  induction fuel with
  | zero =>
    intro current s hs
    simp [stepLoop] at hs
  | succ n ih =>
    intro current s hs
    by_cases hc : current ≤ to_time
    · rw [show stepLoop step to_time (n + 1) current =
          current :: stepLoop step to_time n (current + step) from by
        simp [stepLoop, hc]] at hs
      rcases List.mem_cons.mp hs with rfl | hs'
      · exact ⟨le_refl s, hc⟩
      · obtain ⟨h1, h2⟩ := ih (current + step) s hs'
        exact ⟨by linarith, h2⟩
    · rw [show stepLoop step to_time (n + 1) current = [] from by
        simp [stepLoop, hc]] at hs
      simp at hs

theorem stepLoop_nil_or_head (step to_time : Int) (fuel : Nat) (current : Int) :
    stepLoop step to_time fuel current = [] ∨
    (stepLoop step to_time fuel current).head? = some current := by
  cases fuel with
  | zero => exact Or.inl rfl
  | succ n =>
    by_cases hc : current ≤ to_time
    · right
      rw [show stepLoop step to_time (n + 1) current =
          current :: stepLoop step to_time n (current + step) from by
        simp [stepLoop, hc]]
      rfl
    · left
      simp [stepLoop, hc]

theorem stepLoop_chain (step to_time : Int) :
    ∀ (fuel : Nat) (current : Int),
      List.Chain' (fun a b => b = a + step) (stepLoop step to_time fuel current) := by
  intro fuel
  induction fuel with
  | zero => intro current; simp [stepLoop]
  | succ n ih =>
    intro current
    by_cases hc : current ≤ to_time
    · rw [show stepLoop step to_time (n + 1) current =
          current :: stepLoop step to_time n (current + step) from by
        simp [stepLoop, hc]]
      rw [List.chain'_cons']
      refine ⟨?_, ih (current + step)⟩
      intro b hb
      rcases stepLoop_nil_or_head step to_time n (current + step) with hnil | hhead
      · rw [hnil] at hb
        simp at hb
      · rw [hhead] at hb
        simp at hb
        omega
    · simp [stepLoop, hc]

/-- The fixed step, in seconds, of each supported granularity. -/
def granStep (g : String) : Int :=
  if g = "hourly" then 3600
  else if g = "6hourly" then 21600
  else if g = "daily" then 86400
  else if g = "weekly" then 604800
  else 0

/-- The truncation each granularity applies to the range start. -/
def granTrunc (g : String) (t : Int) : Int :=
  if g = "hourly" then truncHour t
  else if g = "6hourly" then trunc6Hour t
  else if g = "daily" then truncDay t
  else if g = "weekly" then truncWeek t
  else t

theorem truncHour_le (t : Int) : truncHour t ≤ t := by
  unfold truncHour
  omega

theorem truncDay_le (t : Int) : truncDay t ≤ t := by
  unfold truncDay
  omega

theorem trunc6Hour_le (t : Int) : trunc6Hour t ≤ t := by
  simp only [trunc6Hour, truncDay]
  omega

theorem truncWeek_le (t : Int) : truncWeek t ≤ t := by
  unfold truncWeek pyWeekday truncDay
  omega

/-- C4 counterexample: with `from = 1800` (00:30 UTC), `to = 7200` and
granularity `hourly`, the generated slots are `[0, 3600, 7200]`; the slot `0`
lies strictly before `from`, so not every slot lies within `[from, to]`. -/
theorem C4_counterexample :
    calculate_required_time_slots 1800 7200 "hourly" = [0, 3600, 7200] ∧
    (0 : Int) ∈ calculate_required_time_slots 1800 7200 "hourly" ∧
    ¬ ((1800 : Int) ≤ 0) := by
  refine ⟨by decide, ?_, by decide⟩
  rw [show calculate_required_time_slots 1800 7200 "hourly" = [0, 3600, 7200]
    from by decide]
  simp

/-- C4 (amended): every generated slot lies within `[T, to]` where `T` is the
granularity's truncation of `from` (so `T ≤ from`, and the first slot may
precede `from` when `from` is not aligned), and consecutive slots are strictly
increasing, separated by exactly the granularity's fixed step. -/
theorem C4_slot_coverage (from_time to_time : Int) (g : String)
    (hg : g = "hourly" ∨ g = "6hourly" ∨ g = "daily" ∨ g = "weekly") :
    granTrunc g from_time ≤ from_time ∧
    (∀ s ∈ calculate_required_time_slots from_time to_time g,
      granTrunc g from_time ≤ s ∧ s ≤ to_time) ∧
    List.Chain' (fun a b => a < b ∧ b = a + granStep g)
      (calculate_required_time_slots from_time to_time g) := by
  have main : ∀ (step T : Int), 0 < step → T ≤ from_time →
      (∀ s ∈ stepLoop step to_time (loopFuel to_time T) T, T ≤ s ∧ s ≤ to_time) ∧
      List.Chain' (fun a b => a < b ∧ b = a + step)
        (stepLoop step to_time (loopFuel to_time T) T) := by
    intro step T hstep _
    refine ⟨fun s hs => stepLoop_mem_bounds step to_time (le_of_lt hstep) _ T s hs, ?_⟩
    have h := stepLoop_chain step to_time (loopFuel to_time T) T
    exact h.imp (fun a b hab => ⟨by omega, hab⟩)
  rcases hg with rfl | rfl | rfl | rfl
  · have h := main 3600 (truncHour from_time) (by norm_num) (truncHour_le from_time)
    exact ⟨truncHour_le from_time, h.1, h.2⟩
  · have h := main 21600 (trunc6Hour from_time) (by norm_num) (trunc6Hour_le from_time)
    exact ⟨trunc6Hour_le from_time, h.1, h.2⟩
  · have h := main 86400 (truncDay from_time) (by norm_num) (truncDay_le from_time)
    exact ⟨truncDay_le from_time, h.1, h.2⟩
  · have h := main 604800 (truncWeek from_time) (by norm_num) (truncWeek_le from_time)
    exact ⟨truncWeek_le from_time, h.1, h.2⟩

/-- C4 witness: the amended bounds hold for the hourly slots of the
counterexample range. -/
theorem C4_slot_coverage_witness :
    ((granTrunc "hourly" 1800 ≤ 1800) ∧
     (∀ s ∈ calculate_required_time_slots 1800 7200 "hourly",
       granTrunc "hourly" 1800 ≤ s ∧ s ≤ 7200) ∧
     List.Chain' (fun a b => a < b ∧ b = a + granStep "hourly")
       (calculate_required_time_slots 1800 7200 "hourly")) :=
  C4_slot_coverage 1800 7200 "hourly" (Or.inl rfl)

/-- C5: `_compute_best_worst_movers` evaluated at three purely negative daily
P/L movers of magnitudes 10, 5, 1.  After the magnitude-descending sort the
negative movers stand most-negative first, and the code's `worst.reverse()`
(whose own comment says it makes the most negative first) actually lists the
most negative mover (-10) last: the returned worst list is [-1, -5, -10]. -/
theorem C5_worst_movers_at_failing_input :
    ((compute_best_worst_movers
      [⟨0, "A", "A Corp", "stock", none, 1, 0, some 100, some 100, none,
          some (-10), "USD"⟩,
       ⟨1, "B", "B Corp", "stock", none, 1, 0, some 100, some 100, none,
          some (-5), "USD"⟩,
       ⟨2, "C", "C Corp", "stock", none, 1, 0, some 100, some 100, none,
          some (-1), "USD"⟩]).2.map (fun m => m.abs) = [-1, -5, -10]) ∧
    (((compute_best_worst_movers
      [⟨0, "A", "A Corp", "stock", none, 1, 0, some 100, some 100, none,
          some (-10), "USD"⟩,
       ⟨1, "B", "B Corp", "stock", none, 1, 0, some 100, some 100, none,
          some (-5), "USD"⟩,
       ⟨2, "C", "C Corp", "stock", none, 1, 0, some 100, some 100, none,
          some (-1), "USD"⟩]).2.head?.map (fun m => m.abs)) = some (-1)) ∧
    ((-10 : ℚ) < -5 ∧ (-5 : ℚ) < -1) := by
  refine ⟨?_, ?_, by norm_num⟩ <;>
    simp [compute_best_worst_movers, sortMoversDesc, moverInsert, qtruthy] <;>
    norm_num

/-- C6 counterexample: `exDb` holds 2 units at average cost 5 (USD, FX = 1)
and its instrument has no available price, yet `get_portfolio_view` still adds
the position's 10 to `totalCostBasis` (and hence -10 to `unrealizedPL`): the
priceless position is omitted from `totalValue` and `dailyPL` only, not from
all totals. -/
theorem C6_counterexample :
    exDb.latestPrice 0 = none ∧
    (get_portfolio_view exDb).totals.totalValue = 0 ∧
    (get_portfolio_view exDb).totals.totalCostBasis = 10 ∧
    (get_portfolio_view exDb).totals.unrealizedPL = -10 ∧
    (get_portfolio_view exDb).totals.dailyPL = 0 ∧
    ((10 : ℚ) ≠ 0) := by
  refine ⟨rfl, ?_, ?_, ?_, ?_, by norm_num⟩ <;>
    (simp [get_portfolio_view, compute_positions, applyTx, applyTxPos, viewStep,
      instLookup, fx_now, qtruthy, exDb, posLookup]; try norm_num)

/-- The `PositionInfo` produced by the `get_portfolio_view` loop for a
position whose instrument has no latest price. -/
def noPriceInfo (db : Db) (position : Position) (inst : InstrumentData) :
    PositionInfo :=
  { instrumentId := position.instrument_id
    symbol := inst.symbol
    name := inst.name
    type := inst.type
    sector := inst.sector
    quantity := position.quantity
    avgCostBase := if position.avg_cost_trade_ccy > 0 ∧
        qtruthy (fx_now db inst.currency db.base_currency) then
      position.avg_cost_trade_ccy *
        (fx_now db inst.currency db.base_currency).getD 0 else 0
    marketPrice := none
    valueBase := none
    unrealizedPL := none
    dailyPL := none
    currency := inst.currency }

/-- C6 (amended): in the `get_portfolio_view` loop, a position whose
instrument has no available price contributes nothing to `totalValue`, gets
no per-position value/unrealized/daily P/L (so it also contributes nothing to
the portfolio `dailyPL` sum), and the computation succeeds (it is total); but
when its average cost is positive and an FX rate is available, its cost basis
still accrues to `totalCostBasis` (and therefore lowers `unrealizedPL`). -/
theorem C6_no_price_omitted (db : Db) (acc : List PositionInfo × ℚ × ℚ)
    (position : Position) (inst : InstrumentData)
    (hinst : instLookup db position.instrument_id = some inst)
    (hnoprice : db.latestPrice position.instrument_id = none) :
    viewStep db acc position = (acc.1 ++ [noPriceInfo db position inst],
      acc.2.1,
      acc.2.2 + (if position.avg_cost_trade_ccy > 0 ∧
          qtruthy (fx_now db inst.currency db.base_currency) then
        position.quantity * position.avg_cost_trade_ccy *
          (fx_now db inst.currency db.base_currency).getD 0 else 0)) ∧
    (noPriceInfo db position inst).valueBase = none ∧
    (noPriceInfo db position inst).dailyPL = none ∧
    (noPriceInfo db position inst).unrealizedPL = none := by
  refine ⟨?_, rfl, rfl, rfl⟩
  simp [viewStep, noPriceInfo, hinst, hnoprice, qtruthy]

/-- C6 witness: the amended statement instantiated at `exDb`'s priceless
position (2 units at average cost 5, USD, FX 1): `totalValue` stays 0 while
`totalCostBasis` gains 10. -/
theorem C6_no_price_omitted_witness :
    (instLookup exDb 0 = some ⟨0, "AAA", "AAA Corp", "stock", none, "USD"⟩ ∧
     exDb.latestPrice 0 = none) ∧
    (viewStep exDb ([], 0, 0) ⟨0, 2, 5, 0⟩ =
      (([] : List PositionInfo) ++
        [noPriceInfo exDb ⟨0, 2, 5, 0⟩ ⟨0, "AAA", "AAA Corp", "stock", none, "USD"⟩],
       (0 : ℚ),
       (0 : ℚ) + (if (⟨0, 2, 5, 0⟩ : Position).avg_cost_trade_ccy > 0 ∧
           qtruthy (fx_now exDb "USD" exDb.base_currency) then
         (⟨0, 2, 5, 0⟩ : Position).quantity *
             (⟨0, 2, 5, 0⟩ : Position).avg_cost_trade_ccy *
           (fx_now exDb "USD" exDb.base_currency).getD 0 else 0)) ∧
     (noPriceInfo exDb ⟨0, 2, 5, 0⟩
        ⟨0, "AAA", "AAA Corp", "stock", none, "USD"⟩).valueBase = none ∧
     (noPriceInfo exDb ⟨0, 2, 5, 0⟩
        ⟨0, "AAA", "AAA Corp", "stock", none, "USD"⟩).dailyPL = none ∧
     (noPriceInfo exDb ⟨0, 2, 5, 0⟩
        ⟨0, "AAA", "AAA Corp", "stock", none, "USD"⟩).unrealizedPL = none) :=
  ⟨⟨rfl, rfl⟩,
   C6_no_price_omitted exDb ([], 0, 0) ⟨0, 2, 5, 0⟩
     ⟨0, "AAA", "AAA Corp", "stock", none, "USD"⟩ rfl rfl⟩

/-! ## Helper lemmas: allocation sums -/

theorem allocAdd_sum (a : List (String × ℚ)) (k : String) (v : ℚ) :
    ((allocAdd a k v).map (·.2)).sum = (a.map (·.2)).sum + v := by
  induction a with
  | nil => simp [allocAdd]
  | cons e l ih =>
    by_cases h : e.1 = k
    · simp only [allocAdd, if_pos h, List.map_cons, List.sum_cons]
      ring
    · simp only [allocAdd, if_neg h, List.map_cons, List.sum_cons, ih]
      ring

theorem div_map_sum (l : List (String × ℚ)) (c : ℚ) :
    ((l.map (fun e => (e.1, e.2 / c))).map (·.2)).sum = (l.map (·.2)).sum / c := by
  induction l with
  | nil => simp
  | cons e l ih => simp only [List.map_cons, List.sum_cons, ih, add_div]

theorem typeAllocFold_sum (infos : List PositionInfo) :
    ∀ a : List (String × ℚ),
    ((infos.foldl (fun a pos =>
        if qtruthy pos.valueBase then allocAdd a pos.type (pos.valueBase.getD 0)
        else a) a).map (·.2)).sum =
      (a.map (·.2)).sum +
      (infos.map (fun i =>
        if qtruthy i.valueBase then i.valueBase.getD 0 else 0)).sum := by
  induction infos with
  | nil => simp
  | cons p l ih =>
    intro a
    by_cases h : qtruthy p.valueBase
    · simp only [List.foldl_cons, if_pos h, List.map_cons, List.sum_cons, ih,
        allocAdd_sum]
      ring
    · simp only [List.foldl_cons, if_neg h, List.map_cons, List.sum_cons, ih]
      simp [h]

theorem sectorFold_sum (infos : List PositionInfo) :
    ∀ acc : List (String × ℚ) × ℚ,
    (((infos.foldl (fun (acc : List (String × ℚ) × ℚ) pos =>
        if struthy pos.sector ∧ qtruthy pos.valueBase then
          (allocAdd acc.1 (pos.sector.getD "") (pos.valueBase.getD 0),
           acc.2 + pos.valueBase.getD 0)
        else acc) acc).1.map (·.2)).sum =
      (acc.1.map (·.2)).sum +
        (infos.map (fun i =>
          if struthy i.sector ∧ qtruthy i.valueBase then i.valueBase.getD 0
          else 0)).sum) ∧
    ((infos.foldl (fun (acc : List (String × ℚ) × ℚ) pos =>
        if struthy pos.sector ∧ qtruthy pos.valueBase then
          (allocAdd acc.1 (pos.sector.getD "") (pos.valueBase.getD 0),
           acc.2 + pos.valueBase.getD 0)
        else acc) acc).2 =
      acc.2 + (infos.map (fun i =>
        if struthy i.sector ∧ qtruthy i.valueBase then i.valueBase.getD 0
        else 0)).sum) := by
  induction infos with
  | nil => intro acc; simp
  | cons p l ih =>
    intro acc
    by_cases h : struthy p.sector ∧ qtruthy p.valueBase
    · simp only [List.foldl_cons, if_pos h, List.map_cons, List.sum_cons]
      obtain ⟨h1, h2⟩ := ih (allocAdd acc.1 (p.sector.getD "")
        (p.valueBase.getD 0), acc.2 + p.valueBase.getD 0)
      refine ⟨?_, ?_⟩
      · rw [h1, allocAdd_sum]
        ring
      · rw [h2]
        ring
    · simp only [List.foldl_cons, if_neg h, List.map_cons, List.sum_cons]
      obtain ⟨h1, h2⟩ := ih acc
      refine ⟨?_, ?_⟩
      · rw [h1]
        ring
      · rw [h2]
        ring
theorem qtruthy_none : qtruthy none = false := rfl

theorem qtruthy_some (x : ℚ) : qtruthy (some x) = (x != 0) := rfl

theorem viewStep_preserves_value_sum (db : Db) (p : Position)
    (acc : List PositionInfo × ℚ × ℚ)
    (hinv : (acc.1.map (fun i =>
        if qtruthy i.valueBase then i.valueBase.getD 0 else 0)).sum = acc.2.1) :
    ((viewStep db acc p).1.map (fun i =>
        if qtruthy i.valueBase then i.valueBase.getD 0 else 0)).sum =
      (viewStep db acc p).2.1 := by
  cases hinst : instLookup db p.instrument_id with
  | none => simpa [viewStep, hinst] using hinv
  | some inst =>
    by_cases hpriced : qtruthy ((db.latestPrice p.instrument_id).map (·.price))
        ∧ qtruthy (fx_now db inst.currency db.base_currency)
    · by_cases hvb : p.quantity *
          ((db.latestPrice p.instrument_id).map (·.price)).getD 0 *
          (fx_now db inst.currency db.base_currency).getD 0 = 0
      · simp only [viewStep, hinst, hpriced.1, hpriced.2, and_self, if_true,
          List.map_append, List.sum_append, List.map_cons, List.map_nil,
          List.sum_cons, List.sum_nil, qtruthy_some, hvb]
        simp [hinv]
      · simp only [viewStep, hinst, hpriced.1, hpriced.2, and_self, if_true,
          List.map_append, List.sum_append, List.map_cons, List.map_nil,
          List.sum_cons, List.sum_nil, qtruthy_some]
        rw [if_pos (by simpa using hvb)]
        simp [hinv]
    · simp only [viewStep, hinst]
      rw [if_neg hpriced, if_neg hpriced]
      simp only [List.map_append, List.sum_append, List.map_cons, List.map_nil,
        List.sum_cons, List.sum_nil, qtruthy_none]
      simpa using hinv
theorem foldl_viewStep_value_sum (db : Db) (ps : List Position) :
    ∀ acc : List PositionInfo × ℚ × ℚ,
    (acc.1.map (fun i =>
        if qtruthy i.valueBase then i.valueBase.getD 0 else 0)).sum = acc.2.1 →
    ((ps.foldl (viewStep db) acc).1.map (fun i =>
        if qtruthy i.valueBase then i.valueBase.getD 0 else 0)).sum =
      (ps.foldl (viewStep db) acc).2.1 := by
  induction ps with
  | nil => intro acc h; exact h
  | cons p l ih =>
    intro acc h
    rw [List.foldl_cons]
    exact ih (viewStep db acc p) (viewStep_preserves_value_sum db p acc h)

/-- A variant of `exDb` whose instrument has a live price of 10 and no sector
information. -/
def exDbPriced : Db :=
  { exDb with latestPrice := fun _ => some ⟨10, 0, none, none⟩ }

/-- A variant of `exDbPriced` whose instrument carries a sector. -/
def exDbSector : Db :=
  { exDbPriced with
    instruments := [⟨0, "AAA", "AAA Corp", "stock", some "Tech", "USD"⟩] }

/-- C8 counterexample: `exDbPriced` has `totalValue = 20 > 0` but, because its
only position has no sector, `allocationBySector` is the empty map and its
values sum to 0, not 1: the sector half of the claim fails whenever no valued
position has a known sector. -/
theorem C8_counterexample :
    (get_portfolio_view exDbPriced).totals.totalValue = 20 ∧
    ((0 : ℚ) < 20) ∧
    (get_portfolio_view exDbPriced).allocationBySector = [] ∧
    (((get_portfolio_view exDbPriced).allocationBySector.map (·.2)).sum = 0) ∧
    ¬ (((get_portfolio_view exDbPriced).allocationBySector.map (·.2)).sum = 1) := by
  refine ⟨?_, by norm_num, ?_, ?_, ?_⟩ <;>
    (simp [get_portfolio_view, compute_positions, applyTx, applyTxPos, viewStep,
      instLookup, fx_now, qtruthy, struthy, exDbPriced, exDb, posLookup,
      compute_allocation_by_sector]; try norm_num)

/-- C8 (amended): the values of `allocationByType` sum to exactly 1 whenever
`totalValue` is nonzero (in particular whenever it is positive), and the
values of `allocationBySector` sum to exactly 1 whenever the sector map is
nonempty, i.e. whenever the sector-known valued subset has a nonzero total;
when no valued position has a known sector the sector map is empty and its
values sum to 0. -/
theorem C8_allocation_sums (db : Db) :
    ((get_portfolio_view db).totals.totalValue ≠ 0 →
      ((get_portfolio_view db).allocationByType.map (·.2)).sum = 1) ∧
    ((get_portfolio_view db).allocationBySector ≠ [] →
      ((get_portfolio_view db).allocationBySector.map (·.2)).sum = 1) := by
  by_cases hemp : (compute_positions db.transactions).isEmpty
  · constructor
    · intro htv
      exact absurd (by simp [get_portfolio_view, hemp]) htv
    · intro hne
      exact absurd (by simp [get_portfolio_view, hemp]) hne
  · have hview_tv : (get_portfolio_view db).totals.totalValue =
        ((compute_positions db.transactions).foldl (viewStep db) ([], 0, 0)).2.1 := by
      simp [get_portfolio_view, hemp]
    have hview_abt : (get_portfolio_view db).allocationByType =
        compute_allocation_by_type
          ((compute_positions db.transactions).foldl (viewStep db) ([], 0, 0)).1
          ((compute_positions db.transactions).foldl (viewStep db) ([], 0, 0)).2.1 := by
      simp [get_portfolio_view, hemp]
    have hview_abs : (get_portfolio_view db).allocationBySector =
        compute_allocation_by_sector
          ((compute_positions db.transactions).foldl (viewStep db) ([], 0, 0)).1
          ((compute_positions db.transactions).foldl (viewStep db) ([], 0, 0)).2.1 := by
      simp [get_portfolio_view, hemp]
    set acc := (compute_positions db.transactions).foldl (viewStep db) ([], 0, 0)
      with hacc
    have hsum : (acc.1.map (fun i =>
        if qtruthy i.valueBase then i.valueBase.getD 0 else 0)).sum = acc.2.1 :=
      foldl_viewStep_value_sum db (compute_positions db.transactions)
        ([], 0, 0) (by simp)
    constructor
    · intro htv
      rw [hview_tv] at htv
      rw [hview_abt]
      unfold compute_allocation_by_type
      rw [if_neg htv, div_map_sum, typeAllocFold_sum acc.1 [], hsum]
      simpa using div_self htv
    · intro hne
      rw [hview_abs] at hne
      rw [hview_abs]
      unfold compute_allocation_by_sector at hne ⊢
      by_cases htv0 : acc.2.1 = 0
      · rw [if_pos htv0] at hne
        exact absurd rfl hne
      · rw [if_neg htv0] at hne ⊢
        obtain ⟨h1, h2⟩ := sectorFold_sum acc.1 ([], 0)
        by_cases hst : (acc.1.foldl (fun (acc : List (String × ℚ) × ℚ) pos =>
            if struthy pos.sector ∧ qtruthy pos.valueBase then
              (allocAdd acc.1 (pos.sector.getD "") (pos.valueBase.getD 0),
               acc.2 + pos.valueBase.getD 0)
            else acc) ([], 0)).2 = 0
        · rw [if_pos hst] at hne
          exact absurd rfl hne
        · rw [if_neg hst] at hne ⊢
          rw [div_map_sum, h1, h2]
          rw [h2] at hst
          simp only [List.map_nil, List.sum_nil, zero_add] at hst ⊢
          exact div_self hst

/-- C8 witness: for `exDbSector` (totalValue 20, one Tech-sector position)
both allocation maps sum to exactly 1. -/
theorem C8_allocation_sums_witness :
    ((get_portfolio_view exDbSector).totals.totalValue ≠ 0 ∧
     (get_portfolio_view exDbSector).allocationBySector ≠ []) ∧
    (((get_portfolio_view exDbSector).allocationByType.map (·.2)).sum = 1 ∧
     ((get_portfolio_view exDbSector).allocationBySector.map (·.2)).sum = 1) := by
  have h1 : (get_portfolio_view exDbSector).totals.totalValue ≠ 0 := by
    simp [get_portfolio_view, compute_positions, applyTx, applyTxPos, viewStep,
      instLookup, fx_now, qtruthy, exDbSector, exDbPriced, exDb, posLookup]
  have h2 : (get_portfolio_view exDbSector).allocationBySector ≠ [] := by
    simp [get_portfolio_view, compute_positions, applyTx, applyTxPos, viewStep,
      instLookup, fx_now, qtruthy, struthy, exDbSector, exDbPriced, exDb,
      posLookup, compute_allocation_by_sector, allocAdd]
  exact ⟨⟨h1, h2⟩, (C8_allocation_sums exDbSector).1 h1,
    (C8_allocation_sums exDbSector).2 h2⟩

/-! ## Helper lemmas: snapshot backfill -/

theorem backfillLoop_mono (db : Db) (slots : List Int) :
    ∀ (store : List Snapshot) (cnt : Nat) (s : Snapshot), s ∈ store →
      s ∈ (backfillLoop db slots store cnt).1 := by
  induction slots with
  | nil => intro store cnt s hs; exact hs
  | cons sl rest ih =>
    intro store cnt s hs
    by_cases hany : store.any (fun s => s.as_of = sl)
    · rw [show backfillLoop db (sl :: rest) store cnt =
          backfillLoop db rest store cnt from by simp [backfillLoop, hany]]
      exact ih store cnt s hs
    · rw [show backfillLoop db (sl :: rest) store cnt =
          backfillLoop db rest (store ++ [mkBackfillSnapshot db sl]) (cnt + 1)
          from by simp [backfillLoop, hany]]
      exact ih _ _ s (List.mem_append_left _ hs)

theorem backfillLoop_covers (db : Db) (slots : List Int) :
    ∀ (store : List Snapshot) (cnt : Nat) (slot : Int), slot ∈ slots →
      ∃ s ∈ (backfillLoop db slots store cnt).1, s.as_of = slot := by
  induction slots with
  | nil => intro store cnt slot hs; simp at hs
  | cons sl rest ih =>
    intro store cnt slot hs
    by_cases hany : store.any (fun s => s.as_of = sl)
    · rw [show backfillLoop db (sl :: rest) store cnt =
          backfillLoop db rest store cnt from by simp [backfillLoop, hany]]
      rcases List.mem_cons.mp hs with rfl | hrest
      · obtain ⟨w, hw, hweq⟩ := List.any_eq_true.mp hany
        exact ⟨w, backfillLoop_mono db rest store cnt w hw, by simpa using hweq⟩
      · exact ih store cnt slot hrest
    · rw [show backfillLoop db (sl :: rest) store cnt =
          backfillLoop db rest (store ++ [mkBackfillSnapshot db sl]) (cnt + 1)
          from by simp [backfillLoop, hany]]
      rcases List.mem_cons.mp hs with rfl | hrest
      · refine ⟨mkBackfillSnapshot db slot, ?_, rfl⟩
        exact backfillLoop_mono db rest _ _ _ (List.mem_append_right _ (by simp))
      · exact ih _ _ slot hrest

theorem backfillLoop_noop (db : Db) (slots : List Int) :
    ∀ (store : List Snapshot) (cnt : Nat),
      (∀ slot ∈ slots, ∃ s ∈ store, s.as_of = slot) →
      backfillLoop db slots store cnt = (store, cnt) := by
  induction slots with
  | nil => intro store cnt _; rfl
  | cons sl rest ih =>
    intro store cnt hcov
    obtain ⟨w, hw, hweq⟩ := hcov sl (by simp)
    have hany : store.any (fun s => s.as_of = sl) := by
      exact List.any_eq_true.mpr ⟨w, hw, by simpa using hweq⟩
    rw [show backfillLoop db (sl :: rest) store cnt =
        backfillLoop db rest store cnt from by simp [backfillLoop, hany]]
    exact ih store cnt (fun slot hslot => hcov slot (by simp [hslot]))

theorem mem_existingTimesIn (store : List Snapshot) (from_time to_time e : Int) :
    e ∈ existingTimesIn store from_time to_time ↔
      ∃ s ∈ store, from_time ≤ s.as_of ∧ s.as_of ≤ to_time ∧ s.as_of = e := by
  simp [existingTimesIn, List.mem_map, List.mem_filter, and_assoc]

theorem isMissingSlot_eq_false_iff (et : List Int) (slot : Int) :
    isMissingSlot et slot = false ↔
      ∃ e ∈ et, slot = e ∨ |slot - e| < 60 := by
  induction et with
  | nil => simp [isMissingSlot]
  | cons e t ih =>
    by_cases h1 : slot = e
    · simp [isMissingSlot, h1]
    · by_cases h2 : |slot - e| < 60
      · simp [isMissingSlot, h1, h2]
      · simpa [isMissingSlot, h1, h2] using ih

/-- C3: calling `ensure_snapshots_for_range` again with identical arguments on
the store produced by a first call (and no intervening changes) inserts no
snapshots and returns 0. -/
theorem C3_ensure_idempotent (db : Db) (store : List Snapshot)
    (from_time to_time : Int) (granularity : String) :
    ensure_snapshots_for_range db
      (ensure_snapshots_for_range db store from_time to_time granularity).1
      from_time to_time granularity =
    ((ensure_snapshots_for_range db store from_time to_time granularity).1, 0) := by
  by_cases hreq : (calculate_required_time_slots from_time to_time
      granularity).isEmpty
  · rw [show ensure_snapshots_for_range db store from_time to_time granularity =
        (store, 0) from by simp [ensure_snapshots_for_range, hreq]]
    simp [ensure_snapshots_for_range, hreq]
  · have hens : ∀ st : List Snapshot,
        ensure_snapshots_for_range db st from_time to_time granularity =
        backfillLoop db
          ((calculate_required_time_slots from_time to_time granularity).filter
            (isMissingSlot (existingTimesIn st from_time to_time))) st 0 := by
      intro st
      simp [ensure_snapshots_for_range, hreq]
    set store1 := (ensure_snapshots_for_range db store from_time to_time
      granularity).1 with hstore1
    have hmono : ∀ s ∈ store, s ∈ store1 := by
      intro s hs
      rw [hstore1, hens store]
      exact backfillLoop_mono db _ store 0 s hs
    have hcovered : ∀ slot ∈ (calculate_required_time_slots from_time to_time
        granularity).filter
          (isMissingSlot (existingTimesIn store from_time to_time)),
        ∃ s ∈ store1, s.as_of = slot := by
      intro slot hslot
      rw [hstore1, hens store]
      exact backfillLoop_covers db _ store 0 slot hslot
    have hmissing2 : ∀ slot ∈ (calculate_required_time_slots from_time to_time
        granularity).filter
          (isMissingSlot (existingTimesIn store1 from_time to_time)),
        ∃ s ∈ store1, s.as_of = slot := by
      intro slot hslot
      obtain ⟨hreqmem, hmiss2⟩ := List.mem_filter.mp hslot
      by_cases hmiss1 : isMissingSlot (existingTimesIn store from_time to_time)
          slot = true
      · exact hcovered slot (List.mem_filter.mpr ⟨hreqmem, hmiss1⟩)
      · exfalso
        have hfalse := Bool.eq_false_iff.mpr hmiss1
        obtain ⟨e, he, hor⟩ := (isMissingSlot_eq_false_iff _ slot).mp hfalse
        obtain ⟨s0, hs0, hfr, hto, hase⟩ :=
          (mem_existingTimesIn store from_time to_time e).mp he
        have he2 : e ∈ existingTimesIn store1 from_time to_time :=
          (mem_existingTimesIn store1 from_time to_time e).mpr
            ⟨s0, hmono s0 hs0, hfr, hto, hase⟩
        have : isMissingSlot (existingTimesIn store1 from_time to_time) slot
            = false :=
          (isMissingSlot_eq_false_iff _ slot).mpr ⟨e, he2, hor⟩
        rw [hmiss2] at this
        exact Bool.true_eq_false.mp this
    rw [hens store1]
    exact backfillLoop_noop db _ store1 0 hmissing2
/-! ## Helper lemmas: per-day snapshot range -/

theorem snapshot_portfolio_mono (db : Db) (store : List Snapshot) (t : Int)
    (s : Snapshot) (hs : s ∈ store) : s ∈ snapshot_portfolio db store t := by
  simp only [snapshot_portfolio]
  split
  · exact hs
  · exact List.mem_append_left _ hs

theorem snapshot_portfolio_window (db : Db) (store : List Snapshot) (t : Int) :
    ∃ s ∈ snapshot_portfolio db store t,
      t - 60 ≤ s.as_of ∧ s.as_of ≤ t + 60 := by
  simp only [snapshot_portfolio]
  by_cases hany : store.any (fun s => t - 60 ≤ s.as_of && s.as_of ≤ t + 60)
  · rw [if_pos hany]
    obtain ⟨w, hw, hcond⟩ := List.any_eq_true.mp hany
    refine ⟨w, hw, ?_⟩
    simpa using hcond
  · rw [if_neg hany]
    exact ⟨mkViewSnapshot (get_portfolio_view db) t,
      List.mem_append_right _ (by simp),
      by show t - 60 ≤ t; omega,
      by show t ≤ t + 60; omega⟩

theorem snapshot_portfolio_noop (db : Db) (store : List Snapshot) (t : Int)
    (h : ∃ s ∈ store, t - 60 ≤ s.as_of ∧ s.as_of ≤ t + 60) :
    snapshot_portfolio db store t = store := by
  obtain ⟨w, hw, h1, h2⟩ := h
  have hany : store.any (fun s => t - 60 ≤ s.as_of && s.as_of ≤ t + 60) := by
    exact List.any_eq_true.mpr ⟨w, hw, by simp [h1, h2]⟩
  simp only [snapshot_portfolio]
  rw [if_pos hany]

theorem rangeLoop_stop (db : Db) (end_date tzOffset : Int) (fuel : Nat)
    (current : Int) (store : List Snapshot) (h : ¬ current ≤ end_date) :
    rangeLoop db end_date tzOffset fuel current store = (store, 0) := by
  cases fuel with
  | zero => rfl
  | succ n => simp [rangeLoop, h]

theorem rangeLoop_mono (db : Db) (end_date tzOffset : Int) :
    ∀ (fuel : Nat) (current : Int) (store : List Snapshot) (s : Snapshot),
      s ∈ store → s ∈ (rangeLoop db end_date tzOffset fuel current store).1 := by
  intro fuel
  induction fuel with
  | zero => intro current store s hs; exact hs
  | succ n ih =>
    intro current store s hs
    by_cases hc : current ≤ end_date
    · rw [show rangeLoop db end_date tzOffset (n + 1) current store =
          ((rangeLoop db end_date tzOffset n (current + 1)
            (snapshot_portfolio db store (rangeAsOf current tzOffset))).1,
           (rangeLoop db end_date tzOffset n (current + 1)
            (snapshot_portfolio db store (rangeAsOf current tzOffset))).2 + 1)
          from by simp [rangeLoop, hc]]
      exact ih (current + 1) _ s
        (snapshot_portfolio_mono db store _ s hs)
    · rw [rangeLoop_stop db end_date tzOffset (n + 1) current store hc]
      exact hs

theorem rangeLoop_count (db : Db) (end_date tzOffset : Int) :
    ∀ (fuel : Nat) (current : Int) (store : List Snapshot),
      (end_date - current).toNat < fuel →
      (rangeLoop db end_date tzOffset fuel current store).2 =
        (end_date + 1 - current).toNat := by
  intro fuel
  induction fuel with
  | zero => intro current store h; omega
  | succ n ih =>
    intro current store h
    by_cases hc : current ≤ end_date
    · rw [show rangeLoop db end_date tzOffset (n + 1) current store =
          ((rangeLoop db end_date tzOffset n (current + 1)
            (snapshot_portfolio db store (rangeAsOf current tzOffset))).1,
           (rangeLoop db end_date tzOffset n (current + 1)
            (snapshot_portfolio db store (rangeAsOf current tzOffset))).2 + 1)
          from by simp [rangeLoop, hc]]
      by_cases hc2 : current + 1 ≤ end_date
      · have := ih (current + 1)
          (snapshot_portfolio db store (rangeAsOf current tzOffset))
          (by omega)
        simp only [this]
        omega
      · rw [rangeLoop_stop db end_date tzOffset n (current + 1) _ hc2]
        simp
        omega
    · rw [rangeLoop_stop db end_date tzOffset (n + 1) current store hc]
      simp
      omega

theorem rangeLoop_covers (db : Db) (end_date tzOffset : Int) :
    ∀ (fuel : Nat) (current : Int) (store : List Snapshot) (d : Int),
      current ≤ d → d ≤ end_date → d < current + fuel →
      ∃ s ∈ (rangeLoop db end_date tzOffset fuel current store).1,
        rangeAsOf d tzOffset - 60 ≤ s.as_of ∧
        s.as_of ≤ rangeAsOf d tzOffset + 60 := by
  intro fuel
  induction fuel with
  | zero => intro current store d h1 h2 h3; omega
  | succ n ih =>
    intro current store d h1 h2 h3
    have hc : current ≤ end_date := le_trans h1 h2
    rw [show rangeLoop db end_date tzOffset (n + 1) current store =
        ((rangeLoop db end_date tzOffset n (current + 1)
          (snapshot_portfolio db store (rangeAsOf current tzOffset))).1,
         (rangeLoop db end_date tzOffset n (current + 1)
          (snapshot_portfolio db store (rangeAsOf current tzOffset))).2 + 1)
        from by simp [rangeLoop, hc]]
    by_cases hd : d = current
    · subst hd
      obtain ⟨w, hw, hwin⟩ := snapshot_portfolio_window db store
        (rangeAsOf d tzOffset)
      exact ⟨w, rangeLoop_mono db end_date tzOffset n (d + 1) _ w hw, hwin⟩
    · exact ih (current + 1)
        (snapshot_portfolio db store (rangeAsOf current tzOffset)) d
        (by omega) h2 (by omega)

theorem rangeLoop_noop (db : Db) (end_date tzOffset : Int) :
    ∀ (fuel : Nat) (current : Int) (store : List Snapshot),
      (∀ d : Int, current ≤ d → d ≤ end_date →
        ∃ s ∈ store, rangeAsOf d tzOffset - 60 ≤ s.as_of ∧
          s.as_of ≤ rangeAsOf d tzOffset + 60) →
      (rangeLoop db end_date tzOffset fuel current store).1 = store := by
  intro fuel
  induction fuel with
  | zero => intro current store _; rfl
  | succ n ih =>
    intro current store hcov
    by_cases hc : current ≤ end_date
    · have hnoop : snapshot_portfolio db store (rangeAsOf current tzOffset) =
          store := snapshot_portfolio_noop db store _
        (hcov current (le_refl current) hc)
      rw [show rangeLoop db end_date tzOffset (n + 1) current store =
          ((rangeLoop db end_date tzOffset n (current + 1)
            (snapshot_portfolio db store (rangeAsOf current tzOffset))).1,
           (rangeLoop db end_date tzOffset n (current + 1)
            (snapshot_portfolio db store (rangeAsOf current tzOffset))).2 + 1)
          from by simp [rangeLoop, hc]]
      rw [hnoop]
      exact ih (current + 1) store (fun d hd1 hd2 => hcov d (by omega) hd2)
    · rw [rangeLoop_stop db end_date tzOffset (n + 1) current store hc]

/-- C10: for a nonempty date range, `snapshot_user_portfolio_range` counts one
success per calendar day in `[start_date, end_date]` (near-duplicate skips are
silent successes, and the modelled run has no database/oracle failures, so the
count is the full day count); a second identical call returns the same
positive count while inserting zero new snapshots. -/
theorem C10_snapshot_range_idempotent_count (db : Db) (store : List Snapshot)
    (start_date end_date tzOffset : Int) (h : start_date ≤ end_date) :
    (snapshot_user_portfolio_range db store start_date end_date tzOffset).2 =
      (end_date + 1 - start_date).toNat ∧
    0 < (snapshot_user_portfolio_range db store start_date end_date tzOffset).2 ∧
    snapshot_user_portfolio_range db
        (snapshot_user_portfolio_range db store start_date end_date tzOffset).1
        start_date end_date tzOffset =
      ((snapshot_user_portfolio_range db store start_date end_date tzOffset).1,
       (end_date + 1 - start_date).toNat) := by
  have hfuel : (end_date - start_date).toNat <
      (end_date - start_date).toNat + 1 := Nat.lt_succ_self _
  have hcount : (snapshot_user_portfolio_range db store start_date end_date
      tzOffset).2 = (end_date + 1 - start_date).toNat :=
    rangeLoop_count db end_date tzOffset _ start_date store hfuel
  refine ⟨hcount, by rw [hcount]; omega, ?_⟩
  have hcov : ∀ d : Int, start_date ≤ d → d ≤ end_date →
      ∃ s ∈ (snapshot_user_portfolio_range db store start_date end_date
          tzOffset).1,
        rangeAsOf d tzOffset - 60 ≤ s.as_of ∧
        s.as_of ≤ rangeAsOf d tzOffset + 60 := by
    intro d h1 h2
    exact rangeLoop_covers db end_date tzOffset _ start_date store d h1 h2
      (by omega)
  have hstore2 : (snapshot_user_portfolio_range db
      (snapshot_user_portfolio_range db store start_date end_date tzOffset).1
      start_date end_date tzOffset).1 =
      (snapshot_user_portfolio_range db store start_date end_date tzOffset).1 :=
    rangeLoop_noop db end_date tzOffset _ start_date _ hcov
  have hcount2 : (snapshot_user_portfolio_range db
      (snapshot_user_portfolio_range db store start_date end_date tzOffset).1
      start_date end_date tzOffset).2 = (end_date + 1 - start_date).toNat :=
    rangeLoop_count db end_date tzOffset _ start_date _ hfuel
  exact Prod.ext hstore2 hcount2
/-- C10 witness: a three-day range over an empty store: both calls return 3,
and the second call leaves the store untouched. -/
theorem C10_snapshot_range_idempotent_count_witness :
    ((0 : Int) ≤ 2) ∧
    ((snapshot_user_portfolio_range exDb [] 0 2 0).2 =
        ((2 : Int) + 1 - 0).toNat ∧
     0 < (snapshot_user_portfolio_range exDb [] 0 2 0).2 ∧
     snapshot_user_portfolio_range exDb
         (snapshot_user_portfolio_range exDb [] 0 2 0).1 0 2 0 =
       ((snapshot_user_portfolio_range exDb [] 0 2 0).1,
        ((2 : Int) + 1 - 0).toNat)) :=
  ⟨by norm_num,
   C10_snapshot_range_idempotent_count exDb [] 0 2 0 (by norm_num)⟩

end FinQuest
